import Mathlib

/-!
Verification of the retrieval core of the BIO_RAG_Medical_drug backend.

This file gives a shallow embedding, in Lean 4, of the score-fusion,
tokenization, memory, caching and safety logic of the Python backend
(`backend/app/services/*.py`, `backend/app/external/*.py`), and proves or
refutes the specification claims about it.  Python floats are modelled as
rationals (`ℚ`), machine words in the hash function as naturals reduced
mod 2^32, Python lists as Lean lists, and SQL tables as lists of rows.
Python's stable `list.sort` is modelled by `List.insertionSort`, which is
also a stable sort, hence produces the same list for a total preorder key.
-/

namespace BioRag

/-! ## Fusion of dense and sparse candidate sets
(`backend/app/services/bm25_search.py`, class `HybridSearchService`). -/

/-- A row of `VectorDBService.search_similar`'s output, as consumed by
`HybridSearchService.search` (`dense_results`): a `drug_id`, the remaining
document fields (collapsed into one opaque `payload`), and the cosine
`similarity`. -/
structure DenseResult where
  drugId : String
  payload : String
  similarity : ℚ
deriving DecidableEq, Repr

/-- A row of `BM25SearchService.search`'s output: a `drug_id`, the document
fields, and the raw `bm25_score`. -/
structure BM25Result where
  drugId : String
  payload : String
  bm25Score : ℚ
deriving DecidableEq, Repr

/-- A merged record produced by `HybridSearchService.search`. -/
structure HybridResult where
  drugId : String
  payload : String
  denseScore : ℚ
  bm25Score : ℚ
  hybridScore : ℚ
  similarity : ℚ
deriving DecidableEq, Repr

/-- `HybridSearchService.BM25_MAX_SCORE = 30.0`. -/
def BM25_MAX_SCORE : ℚ := 30

/-- `HybridSearchService._normalize_bm25_score`:
`min(score / 30.0, 1.0)`. -/
def normalizeBm25Score (score : ℚ) : ℚ :=
  min (score / BM25_MAX_SCORE) 1

/-- `dense_map = {r["drug_id"]: r for r in dense_results}` followed by
`dense_map.get(drug_id)`: a Python dict comprehension keeps the last
record with a given key, so the lookup finds the last matching record. -/
def denseLookup (denseResults : List DenseResult) (id : String) : Option DenseResult :=
  denseResults.reverse.find? (fun r => r.drugId = id)

/-- `bm25_map = {r["drug_id"]: r for r in bm25_results}` followed by
`bm25_map.get(drug_id)`. -/
def bm25Lookup (bm25Results : List BM25Result) (id : String) : Option BM25Result :=
  bm25Results.reverse.find? (fun r => r.drugId = id)

/-- The dense component of a merged record: the `similarity` of the dense
record with that id, `0` when the id is missing from the dense set. -/
def denseScoreOf (denseResults : List DenseResult) (id : String) : ℚ :=
  match denseLookup denseResults id with
  | some r => r.similarity
  | none => 0

/-- The sparse component of a merged record: the normalized `bm25_score` of
the sparse record with that id, `0` when the id is missing. -/
def sparseScoreOf (bm25Results : List BM25Result) (id : String) : ℚ :=
  match bm25Lookup bm25Results id with
  | some r => normalizeBm25Score r.bm25Score
  | none => 0

/-- `all_drug_ids = set(dense_map.keys()) | set(bm25_map.keys())`.  A Python
set has no specified iteration order; we enumerate the union in a fixed
order (the claims proved below do not depend on the enumeration order). -/
def allDrugIds (denseResults : List DenseResult) (bm25Results : List BM25Result) : List String :=
  ((denseResults.map (·.drugId)) ++ (bm25Results.map (·.drugId))).dedup

/-- Ordering used by `hybrid_results.sort(key=lambda x: x["hybrid_score"], reverse=True)`. -/
def hybridGE (a b : HybridResult) : Prop :=
  b.hybridScore ≤ a.hybridScore

instance : DecidableRel hybridGE := fun a b =>
  inferInstanceAs (Decidable (b.hybridScore ≤ a.hybridScore))

instance : IsTotal HybridResult hybridGE :=
  ⟨fun a b => le_total b.hybridScore a.hybridScore⟩

instance : IsTrans HybridResult hybridGE :=
  ⟨fun _ _ _ hab hbc => le_trans hbc hab⟩

/-- The loop body of `HybridSearchService.search`: for one `drug_id`, the
merged record (or `None` when neither map has the id, which cannot happen
for ids drawn from the union). -/
def mergeOne (denseResults : List DenseResult) (bm25Results : List BM25Result)
    (denseWeight sparseWeight : ℚ) (id : String) : Option HybridResult :=
  let dOpt := denseLookup denseResults id
  let bOpt := bm25Lookup bm25Results id
  let denseScore := match dOpt with
    | some r => r.similarity
    | none => 0
  let sparseScore := match bOpt with
    | some r => normalizeBm25Score r.bm25Score
    | none => 0
  let hybridScore := sparseWeight * sparseScore + denseWeight * denseScore
  match dOpt, bOpt with
  | some r, _ =>
    some ⟨r.drugId, r.payload, denseScore, sparseScore, hybridScore, r.similarity⟩
  | none, some r =>
    some ⟨r.drugId, r.payload, denseScore, sparseScore, hybridScore, hybridScore⟩
  | none, none => none

/-- `HybridSearchService.search`, given the two candidate sets: merge by
`drug_id` over the union of ids, compute the weighted hybrid score, sort by
`hybrid_score` descending (stable), truncate to `top_k`. -/
def hybridSearch (denseResults : List DenseResult) (bm25Results : List BM25Result)
    (denseWeight sparseWeight : ℚ) (topK : ℕ) : List HybridResult :=
  let merged := (allDrugIds denseResults bm25Results).filterMap
    (mergeOne denseResults bm25Results denseWeight sparseWeight)
  (merged.insertionSort hybridGE).take topK

/-! ## Native hybrid store fusion
(`backend/app/services/milvus_service.py`, `MilvusService.hybrid_search`). -/

/-- One hit returned by a Milvus ANN query: the entity's `drug_id`, the
remaining entity fields (opaque `entity` payload), and the hit `distance`
(a similarity-like score for the chosen metrics). -/
structure MilvusHit where
  drugId : String
  entity : String
  score : ℚ
deriving DecidableEq, Repr

/-- The value stored in `results_map` for one `drug_id`. -/
structure MilvusEntry where
  entity : String
  denseScore : ℚ
  sparseScore : ℚ
deriving DecidableEq, Repr

/-- `MilvusSearchResult` (the dataclass), restricted to the fields the
claims are about. -/
structure MilvusSearchResult where
  drugId : String
  entity : String
  denseScore : ℚ
  sparseScore : ℚ
  hybridScore : ℚ
deriving DecidableEq, Repr

/-- `settings.SPLADE_MAX_SCORE` (default `10.0`). -/
def SPLADE_MAX_SCORE : ℚ := 10

/-- Insert-or-replace into a Python dict modelled as an association list:
an existing key keeps its position, a new key is appended. -/
def assocSet {β : Type} : List (String × β) → String → β → List (String × β)
  | [], k, v => [(k, v)]
  | (k', v') :: rest, k, v =>
    if k' = k then (k, v) :: rest else (k', v') :: assocSet rest k v

/-- Python dict lookup (`m.get(k)` / `k in m`). -/
def assocFind {β : Type} (m : List (String × β)) (k : String) : Option β :=
  (m.find? (fun p => p.1 = k)).map (·.2)

/-- The dense-results loop of `MilvusService.hybrid_search`: each dense hit
is stored as `{entity, dense_score, sparse_score: 0.0}` keyed by `drug_id`. -/
def milvusDenseFold (denseHits : List MilvusHit) : List (String × MilvusEntry) :=
  denseHits.foldl (fun m hit => assocSet m hit.drugId ⟨hit.entity, hit.score, 0⟩) []

/-- The sparse-results loop: normalize the hit score by
`min(raw / SPLADE_MAX_SCORE, 1.0)`; update the `sparse_score` of an
existing entry, or insert a new entry with `dense_score: 0.0`. -/
def milvusSparseFold (m : List (String × MilvusEntry)) (sparseHits : List MilvusHit) :
    List (String × MilvusEntry) :=
  sparseHits.foldl (fun m hit =>
    let sparseScore := min (hit.score / SPLADE_MAX_SCORE) 1
    match assocFind m hit.drugId with
    | some e => assocSet m hit.drugId { e with sparseScore := sparseScore }
    | none => assocSet m hit.drugId ⟨hit.entity, 0, sparseScore⟩) m

/-- Ordering used by `hybrid_results.sort(key=lambda x: x.hybrid_score, reverse=True)`. -/
def milvusGE (a b : MilvusSearchResult) : Prop :=
  b.hybridScore ≤ a.hybridScore

instance : DecidableRel milvusGE := fun a b =>
  inferInstanceAs (Decidable (b.hybridScore ≤ a.hybridScore))

instance : IsTotal MilvusSearchResult milvusGE :=
  ⟨fun a b => le_total b.hybridScore a.hybridScore⟩

instance : IsTrans MilvusSearchResult milvusGE :=
  ⟨fun _ _ _ hab hbc => le_trans hbc hab⟩

/-- `MilvusService.hybrid_search`, given the two hit lists of the ANN
queries: build `results_map` (dense pass, then sparse pass), compute
`hybrid_score = sparse_weight * sparse_score + dense_weight * dense_score`
for every entry, sort by `hybrid_score` descending (stable), truncate to
`top_k`. -/
def milvusHybridSearch (denseHits sparseHits : List MilvusHit)
    (denseWeight sparseWeight : ℚ) (topK : ℕ) : List MilvusSearchResult :=
  let resultsMap := milvusSparseFold (milvusDenseFold denseHits) sparseHits
  let hybridResults := resultsMap.map (fun p =>
    ⟨p.1, p.2.entity, p.2.denseScore, p.2.sparseScore,
      sparseWeight * p.2.sparseScore + denseWeight * p.2.denseScore⟩)
  (hybridResults.insertionSort milvusGE).take topK

/-- The dense component a merged Milvus record should carry: the score of
the last dense hit with that id, `0` when the id has no dense hit. -/
def milvusDenseScoreOf (denseHits : List MilvusHit) (id : String) : ℚ :=
  match denseHits.reverse.find? (fun hit => hit.drugId = id) with
  | some hit => hit.score
  | none => 0

/-- The normalized sparse component a merged Milvus record should carry:
`min(raw / SPLADE_MAX_SCORE, 1.0)` of the last sparse hit with that id,
`0` when the id has no sparse hit. -/
def milvusSparseScoreOf (sparseHits : List MilvusHit) (id : String) : ℚ :=
  match sparseHits.reverse.find? (fun hit => hit.drugId = id) with
  | some hit => min (hit.score / SPLADE_MAX_SCORE) 1
  | none => 0

/-! ## Retrieval orchestrator
(`backend/app/services/rag_engine.py`, `RAGEngine.search`,
`RAGEngine._search_with_pgvector`, `RAGEngine.search_and_generate`). -/

/-- A candidate dictionary flowing through `RAGEngine.search`.  Both search
paths set `similarity`; `dense_score`, `sparse_score`, `hybrid_score` and
`relevance_score` are present only when the producing step sets them. -/
structure RagDict where
  drugId : String
  payload : String
  similarity : ℚ
  denseScore : Option ℚ := none
  sparseScore : Option ℚ := none
  hybridScore : Option ℚ := none
  relevance : Option ℚ := none
deriving DecidableEq, Repr

/-- The `SearchResult` dataclass, with the document fields collapsed into
`payload`. -/
structure SearchResultRec where
  drugId : String
  payload : String
  similarity : ℚ
  relevance : Option ℚ
  denseScore : Option ℚ
  bm25Score : Option ℚ
  hybridScore : Option ℚ
deriving DecidableEq, Repr

/-- `RAGEngine._search_with_pgvector`: dense retrieval via
`VectorDBService.search_similar` (abstracted as `denseFetch`, indexed by the
requested `top_k`), then `r["dense_score"] = r.get("similarity", 0)` on each
row. -/
def searchWithPgvector (denseFetch : ℕ → List RagDict) (topK : ℕ) : List RagDict :=
  (denseFetch topK).map (fun r => { r with denseScore := some r.similarity })

/-- The final conversion of `RAGEngine.search`:
`similarity=r.get("hybrid_score", r.get("similarity", r.get("dense_score", 0)))`,
`bm25_score=r.get("sparse_score")`. -/
def toSearchResult (r : RagDict) : SearchResultRec :=
  ⟨r.drugId, r.payload, r.hybridScore.getD r.similarity, r.relevance,
    r.denseScore, r.sparseScore, r.hybridScore⟩

/-- The candidate list `results` of `RAGEngine.search` just before the
reranking/truncation step: the Milvus hybrid path when
`self.enable_milvus and self.milvus_service`, the pgvector dense path
otherwise.  Both remote searches are abstracted as functions of the
requested size. -/
def ragSearchCandidates (enableMilvus : Bool) (milvusFetch : ℕ → List RagDict)
    (denseFetch : ℕ → List RagDict) (initialTopK : ℕ) : List RagDict :=
  if enableMilvus then milvusFetch initialTopK
  else searchWithPgvector denseFetch initialTopK

/-- `RAGEngine.search`: compute the expansion factor (5 with reranking, 3
without), fetch `top_k * factor` candidates, rerank (when enabled and the
candidate list is non-empty) or truncate to `top_k`, convert to
`SearchResult`. -/
def ragSearch (enableMilvus : Bool) (milvusFetch : ℕ → List RagDict)
    (denseFetch : ℕ → List RagDict) (rerankerEnabled useReranking : Bool)
    (rerankFetch : List RagDict → ℕ → List RagDict) (topK : ℕ) : List SearchResultRec :=
  let expandFactor := if useReranking ∧ rerankerEnabled then 5 else 3
  let initialTopK := topK * expandFactor
  let results := ragSearchCandidates enableMilvus milvusFetch denseFetch initialTopK
  let reranked :=
    if useReranking ∧ rerankerEnabled ∧ results ≠ [] then rerankFetch results topK
    else results.take topK
  reranked.map toSearchResult

/-- Modelled from the spec: "If the native hybrid store is configured and
reachable, encode a sparse query vector and call `hybrid_search`; otherwise,
call dense-only and then BM25-fuse (§4.7)."  Identical to `ragSearch`
except that the non-native branch fuses the dense candidates with the BM25
candidate set under the §4.7 policy (`hybridSearch` with the default
weights) before reranking/truncation.  This is the claimed behaviour, to be
compared with `ragSearch` (the code's behaviour). -/
def ragSearchSpecFused (enableMilvus : Bool) (milvusFetch : ℕ → List RagDict)
    (denseFetch : ℕ → List RagDict) (bm25Results : List BM25Result)
    (rerankerEnabled useReranking : Bool)
    (rerankFetch : List RagDict → ℕ → List RagDict) (topK : ℕ) : List SearchResultRec :=
  let expandFactor := if useReranking ∧ rerankerEnabled then 5 else 3
  let initialTopK := topK * expandFactor
  let results :=
    if enableMilvus then milvusFetch initialTopK
    else
      let dense := searchWithPgvector denseFetch initialTopK
      (hybridSearch (dense.map (fun r => ⟨r.drugId, r.payload, r.similarity⟩))
          bm25Results (7/10) (3/10) initialTopK).map
        (fun h => ⟨h.drugId, h.payload, h.similarity, some h.denseScore,
          some h.bm25Score, some h.hybridScore, none⟩)
  let reranked :=
    if useReranking ∧ rerankerEnabled ∧ results ≠ [] then rerankFetch results topK
    else results.take topK
  reranked.map toSearchResult

/-- The disease counterpart of `SearchResult` (`DiseaseResult`), collapsed
to the fields the claims need. -/
structure DiseaseResultRec where
  diseaseId : String
  name : String
  payload : String
  similarity : ℚ
  relevance : Option ℚ
deriving DecidableEq, Repr

/-- The `RAGResponse` dataclass. -/
structure RAGResponseRec where
  results : List SearchResultRec
  diseaseResults : List DiseaseResultRec
  aiResponse : Option String
  graphContext : Option String
  disclaimer : String
deriving DecidableEq, Repr

/-- The fixed fallback answer used when the LLM call raises. -/
def FALLBACK_AI_RESPONSE : String :=
  "AI 응답을 생성할 수 없습니다. 아래 검색 결과를 참고해 주세요."

/-- The fixed apology used when both result sets are empty. -/
def NO_RESULTS_RESPONSE : String :=
  "죄송합니다. 관련 정보를 찾을 수 없습니다. 다른 증상으로 검색해 보시거나, 약사/의사와 상담하세요."

/-- The fixed disclaimer attached to every `RAGResponse`. -/
def RAG_DISCLAIMER : String :=
  "※ 이 정보는 참고용입니다. 실제 복약은 의사/약사와 상담하세요."

/-- `RAGEngine.search_and_generate`, with the retrieval results of the two
searches, the formatted graph context, the context formatter
(`LLMService.format_integrated_context`) and the answer LLM call
(`LLMService.generate_integrated_response`, `Except.error` = the call
raised) supplied as collaborators. -/
def searchAndGenerate (drugResults : List SearchResultRec)
    (diseaseSearch : List DiseaseResultRec)
    (includeDiseases includeGraph enableNeo4j : Bool)
    (graphContext : String)
    (formatContext : List SearchResultRec → List DiseaseResultRec → String)
    (llmGenerate : String → String → Except String String)
    (query : String) : RAGResponseRec :=
  let diseaseResults := if includeDiseases then diseaseSearch else []
  if drugResults = [] ∧ diseaseResults = [] then
    ⟨[], [], some NO_RESULTS_RESPONSE, none, RAG_DISCLAIMER⟩
  else
    let graphCtx := if includeGraph ∧ enableNeo4j then graphContext else ""
    let context := formatContext drugResults diseaseResults ++ graphCtx
    let aiResponse :=
      match llmGenerate query context with
      | Except.ok resp => resp
      | Except.error _ => FALLBACK_AI_RESPONSE
    ⟨drugResults, diseaseResults, some aiResponse,
      if includeGraph ∧ enableNeo4j then some graphCtx else none, RAG_DISCLAIMER⟩

/-! ## Reranker client
(`backend/app/external/cohere_client.py`, `CohereReranker.rerank`). -/

/-- A candidate document passed to the reranker (a Python dict; the fields
other than the scores are collapsed into `payload`). -/
structure RerankDoc where
  drugId : String
  payload : String
  relevance : Option ℚ := none
  originalRank : Option ℕ := none
deriving DecidableEq, Repr

/-- The outcome of the external `self.client.rerank(...)` call: a list of
`(index, relevance_score)` results, or a raised exception. -/
inductive RerankOutcome where
  | ok (results : List (ℕ × ℚ))
  | fail (msg : String)
deriving DecidableEq, Repr

/-- `settings.RERANK_TOP_N` (default `5`). -/
def RERANK_TOP_N : ℕ := 5

/-- Python's `x or d` for an optional integer (`top_n or settings.RERANK_TOP_N`):
`None` and `0` are falsy. -/
def pyOrNat (x : Option ℕ) (d : ℕ) : ℕ :=
  match x with
  | some n => if n ≠ 0 then n else d
  | none => d

/-- `CohereReranker.rerank`.  When the reranker is disabled or the document
list is empty the inputs are returned unchanged; otherwise the external
call is made with `top_n = min(top_n, len(documents))`; on success each
result index selects the source document and attaches `relevance_score`
and `original_rank`; on exception the inputs truncated to `top_n` are
returned (`documents[:top_n] if top_n else documents`). -/
def rerank (enabled : Bool) (outcome : RerankOutcome)
    (documents : List RerankDoc) (topN? : Option ℕ) : List RerankDoc :=
  if ¬enabled ∨ documents = [] then documents
  else
    let topN := pyOrNat topN? RERANK_TOP_N
    match outcome with
    | RerankOutcome.ok results =>
      results.filterMap (fun p =>
        (documents.get? p.1).map
          (fun d => { d with relevance := some p.2, originalRank := some p.1 }))
    | RerankOutcome.fail _ =>
      if topN ≠ 0 then documents.take topN else documents

/-! ## Dense index client
(`backend/app/services/vector_db.py`, `VectorDBService.search_similar`;
`backend/app/services/disease_vector_db.py` computes the same
`1 - (v.embedding <=> q)` expression). -/

/-- A joined row of `drug_vectors` x `drugs` as seen by the query of
`search_similar`, carrying the value `distance` computed server-side by the
pgvector cosine operator `v.embedding <=> query`. -/
structure PgRow where
  drugId : String
  document : String
  payload : String
  distance : ℚ
deriving DecidableEq, Repr

/-- The row returned by `search_similar`. -/
structure SimilarRow where
  drugId : String
  document : String
  payload : String
  similarity : ℚ
deriving DecidableEq, Repr

/-- `sum(u_i * v_i)`. -/
def dotQ (u v : List ℚ) : ℚ :=
  (List.zipWith (· * ·) u v).sum

/-- The pgvector cosine-distance operator `<=>`:
`1 - <u, v> / (‖u‖ * ‖v‖)`, with the two Euclidean norms supplied as
`nu` and `nv` (so that the definition stays inside `ℚ`; callers instantiate
them with values whose squares are `dotQ u u` and `dotQ v v`). -/
def cosineDistance (u v : List ℚ) (nu nv : ℚ) : ℚ :=
  1 - dotQ u v / (nu * nv)

/-- `float(row.similarity) if row.similarity else 0.0`: `0.0` is falsy and
maps to `0.0`, any other value is kept (SQL `NULL` cannot arise here since
the queried vectors are `NOT NULL`). -/
def pyFloatOrZero (x : ℚ) : ℚ :=
  if x = 0 then 0 else x

/-- Ordering of `ORDER BY v.embedding <=> q` (distance ascending). -/
def distLE (a b : PgRow) : Prop :=
  a.distance ≤ b.distance

instance : DecidableRel distLE := fun a b =>
  inferInstanceAs (Decidable (a.distance ≤ b.distance))

instance : IsTotal PgRow distLE :=
  ⟨fun a b => le_total a.distance b.distance⟩

instance : IsTrans PgRow distLE :=
  ⟨fun _ _ _ hab hbc => le_trans hab hbc⟩

/-- `VectorDBService.search_similar`: order the joined rows by cosine
distance ascending, keep `top_k`, and return each with
`similarity = 1 - distance`. -/
def searchSimilar (rows : List PgRow) (topK : ℕ) : List SimilarRow :=
  ((rows.insertionSort distLE).take topK).map
    (fun r => ⟨r.drugId, r.document, r.payload, pyFloatOrZero (1 - r.distance)⟩)

/-! ## Embedded-DB memory backend
(`backend/app/external/duckdb_client.py`, `DuckDBClient`), and the history
append of `backend/app/services/memory_service.py`
(`MemoryService.add_to_history`). -/

/-- A row of the `kv_store` table (`key` is the primary key). -/
structure KvRow where
  key : String
  value : String
  expiresAt : Option ℚ
deriving DecidableEq, Repr

/-- A row of the `list_store` table (primary key `(key, idx)`). -/
structure ListRow where
  key : String
  idx : ℤ
  value : String
deriving DecidableEq, Repr

/-- The state of the embedded DuckDB file: the two tables. -/
structure DuckState where
  kv : List KvRow
  listStore : List ListRow
deriving DecidableEq, Repr

/-- The empty database. -/
def duckEmpty : DuckState := ⟨[], []⟩

/-- `INSERT OR REPLACE INTO kv_store`: replace the row with the same key in
place, or append a new row. -/
def kvReplace : List KvRow → KvRow → List KvRow
  | [], r => [r]
  | x :: xs, r => if x.key = r.key then r :: xs else x :: kvReplace xs r

/-- `SELECT ... FROM kv_store WHERE key = ?` (`fetchone`); the primary key
makes at most one row match. -/
def kvFind (s : DuckState) (k : String) : Option KvRow :=
  s.kv.find? (fun r => r.key = k)

/-- `DuckDBClient.set`: `expires_at = time.time() + ttl if ttl else None`
(both `None` and `0` are falsy), then `INSERT OR REPLACE`. -/
def duckSet (s : DuckState) (k v : String) (ttl : Option ℚ) (now : ℚ) : DuckState :=
  let expiresAt :=
    match ttl with
    | some t => if t ≠ 0 then some (now + t) else none
    | none => none
  { s with kv := kvReplace s.kv ⟨k, v, expiresAt⟩ }

/-- `DuckDBClient.delete`: delete the key from both tables. -/
def duckDelete (s : DuckState) (k : String) : DuckState :=
  ⟨s.kv.filter (fun r => ¬ r.key = k), s.listStore.filter (fun r => ¬ r.key = k)⟩

/-- `DuckDBClient._cleanup_expired`: `DELETE FROM kv_store WHERE expires_at
IS NOT NULL AND expires_at < now`. -/
def duckCleanupExpired (s : DuckState) (now : ℚ) : DuckState :=
  { s with kv := s.kv.filter (fun r =>
      match r.expiresAt with
      | some e => ¬ e < now
      | none => true) }

/-- `DuckDBClient.expire`: `UPDATE kv_store SET expires_at = now + seconds
WHERE key = ?` (a no-op when the key has no `kv_store` row). -/
def duckExpire (s : DuckState) (k : String) (seconds now : ℚ) : DuckState :=
  { s with kv := s.kv.map (fun r =>
      if r.key = k then { r with expiresAt := some (now + seconds) } else r) }

/-- Python `int()` on a rational: truncation toward zero. -/
def ratTrunc (x : ℚ) : ℤ :=
  if 0 ≤ x then ⌊x⌋ else ⌈x⌉

/-- `DuckDBClient.ttl`: `-2` when no `kv_store` row matches the key, `-1`
when the row has no expiration, else `max(int(expires_at - now), 0)`. -/
def duckTtl (s : DuckState) (k : String) (now : ℚ) : ℤ :=
  match kvFind s k with
  | none => -2
  | some r =>
    match r.expiresAt with
    | none => -1
    | some e => max (ratTrunc (e - now)) 0

/-- The `list_store` rows of one key. -/
def rowsFor (s : DuckState) (k : String) : List ListRow :=
  s.listStore.filter (fun r => r.key = k)

/-- `SELECT COALESCE(MAX(idx), -1) FROM list_store WHERE key = ?`. -/
def maxIdxFor (s : DuckState) (k : String) : ℤ :=
  match (rowsFor s k).map (·.idx) with
  | [] => -1
  | x :: xs => xs.foldl max x

/-- `DuckDBClient.rpush`: insert `(key, max_idx + 1, value)`. -/
def duckRpush (s : DuckState) (k v : String) : DuckState :=
  { s with listStore := s.listStore ++ [⟨k, maxIdxFor s k + 1, v⟩] }

/-- `DuckDBClient.llen`: `SELECT COUNT(*) FROM list_store WHERE key = ?`. -/
def duckLlen (s : DuckState) (k : String) : ℕ :=
  (rowsFor s k).length

/-- `ORDER BY idx` (the primary key makes the indices of one key distinct,
so any sort produces the SQL result). -/
def rowLE (a b : ListRow) : Prop :=
  a.idx ≤ b.idx

instance : DecidableRel rowLE := fun a b =>
  inferInstanceAs (Decidable (a.idx ≤ b.idx))

instance : IsTotal ListRow rowLE :=
  ⟨fun a b => le_total a.idx b.idx⟩

instance : IsTrans ListRow rowLE :=
  ⟨fun _ _ _ hab hbc => le_trans hab hbc⟩

/-- `DuckDBClient.lrange` (`end = -1` means "from `start` on"). -/
def duckLrange (s : DuckState) (k : String) (start stop : ℤ) : List String :=
  if stop = -1 then
    (((rowsFor s k).filter (fun r => start ≤ r.idx)).insertionSort rowLE).map (·.value)
  else
    (((rowsFor s k).filter (fun r => start ≤ r.idx ∧ r.idx ≤ stop)).insertionSort rowLE).map (·.value)

/-- `DuckDBClient._reindex_list`: read the key's rows ordered by `idx`,
delete them, and re-insert them with indices `0..n-1`. -/
def duckReindex (s : DuckState) (k : String) : DuckState :=
  let ordered := (rowsFor s k).insertionSort rowLE
  let others := s.listStore.filter (fun r => ¬ r.key = k)
  { s with listStore := others ++ ordered.mapIdx (fun i r => ⟨k, (i : ℤ), r.value⟩) }

/-- `DuckDBClient.ltrim`: when `end = -1` delete the key's rows with
`idx < start`, otherwise delete those with `idx < start OR idx > end`;
then re-index.  Note the comparison is against the *stored* `idx` values:
a negative `start` (Redis-style "count from the end") deletes nothing. -/
def duckLtrim (s : DuckState) (k : String) (start stop : ℤ) : DuckState :=
  let afterDelete :=
    if stop = -1 then
      { s with listStore := s.listStore.filter (fun r => ¬ (r.key = k ∧ r.idx < start)) }
    else
      { s with listStore := s.listStore.filter (fun r =>
          ¬ (r.key = k ∧ (r.idx < start ∨ stop < r.idx))) }
  duckReindex afterDelete k

/-- `MemoryService.MAX_HISTORY_LENGTH` (default `20`). -/
def MAX_HISTORY_LENGTH : ℕ := 20

/-- `MemoryService.DEFAULT_HISTORY_TTL` (24 hours). -/
def DEFAULT_HISTORY_TTL : ℚ := 86400

/-- The history key of a session: `history:{session_id}`. -/
def historyKey (sessionId : String) : String :=
  "history:" ++ sessionId

/-- `MemoryService.add_to_history` on the DuckDB backend: `rpush` the
JSON-encoded turn, read `llen`, `ltrim(key, -max_history, -1)` when the
length exceeds `max_history`, then refresh the TTL with `expire`. -/
def addToHistory (s : DuckState) (sessionId turnJson : String)
    (maxHistory : ℕ) (historyTtl now : ℚ) : DuckState :=
  let key := historyKey sessionId
  let s1 := duckRpush s key turnJson
  let len := duckLlen s1 key
  let s2 := if maxHistory < len then duckLtrim s1 key (-(maxHistory : ℤ)) (-1) else s1
  duckExpire s2 key historyTtl now

/-! ## Korean tokenizer
(`backend/app/services/bm25_search.py`, `KoreanTokenizer.tokenize`). -/

/-- The fixed stopword set of `KoreanTokenizer`. -/
def stopwords : List String :=
  ["이", "가", "을", "를", "의", "에", "에서", "으로", "로", "와", "과",
   "는", "은", "도", "만", "까지", "부터", "에게", "한테", "께",
   "하다", "있다", "되다", "없다", "않다", "이다", "아니다",
   "그", "저", "이것", "그것", "저것", "여기", "거기", "저기",
   "및", "등", "것", "수", "때", "중", "내", "위", "후", "전",
   "좀", "너무", "매우", "정말", "아주", "많이", "조금", "약간",
   "해요", "합니다", "해주세요", "주세요", "싶어요", "같아요"]

/-- The fixed symptom-keyword set of `KoreanTokenizer` (tokens matching it
are emitted two extra times). -/
def symptomKeywords : List String :=
  ["두통", "열", "발열", "기침", "콧물", "재채기", "인후통", "목아픔",
   "복통", "설사", "변비", "구토", "소화불량", "속쓰림", "위통",
   "근육통", "관절통", "요통", "허리", "어깨", "무릎",
   "피로", "무기력", "권태", "졸음", "불면", "두드러기",
   "가려움", "발진", "염증", "통증", "붓기", "부종",
   "어지러움", "현기증", "메스꺼움", "구역질",
   "감기", "독감", "알레르기", "비염", "천식"]

/-- The symptom synonym map of `KoreanTokenizer` (everyday phrase to
medical terms), in source (dict-insertion) order. -/
def symptomSynonyms : List (String × List String) :=
  [("배가", ["복통", "복부", "위통", "장", "소화"]),
   ("배아파", ["복통", "복부통증", "위통", "장통"]),
   ("배아픔", ["복통", "복부통증", "위통"]),
   ("아파요", ["통증", "동통"]),
   ("아파", ["통증", "동통"]),
   ("아픔", ["통증", "동통"]),
   ("속이", ["소화", "위장", "속쓰림", "위"]),
   ("속쓰려", ["속쓰림", "위염", "위산"]),
   ("체했", ["소화불량", "체기", "위장"]),
   ("체해", ["소화불량", "체기", "위장"]),
   ("더부룩", ["소화불량", "복부팽만", "가스"]),
   ("가스차", ["복부팽만", "가스", "장내가스"]),
   ("변을", ["변비", "설사", "배변"]),
   ("화장실", ["변비", "설사", "배변"]),
   ("머리가", ["두통", "편두통", "두부"]),
   ("머리아파", ["두통", "편두통"]),
   ("머리아픔", ["두통", "편두통"]),
   ("지끈", ["두통", "편두통"]),
   ("지끈거려", ["두통", "편두통"]),
   ("열나", ["발열", "고열", "열"]),
   ("열이나", ["발열", "고열", "열"]),
   ("으슬으슬", ["오한", "발열", "감기"]),
   ("춥고", ["오한", "발열"]),
   ("콧물나", ["콧물", "비염", "감기"]),
   ("코막혀", ["코막힘", "비염", "축농증"]),
   ("기침나", ["기침", "해소", "가래"]),
   ("목이", ["인후통", "목통증", "인후염"]),
   ("목아파", ["인후통", "목통증", "인후염"]),
   ("목아픔", ["인후통", "목통증"]),
   ("따끔", ["인후통", "목통증"]),
   ("허리가", ["요통", "허리통증", "요추"]),
   ("허리아파", ["요통", "허리통증"]),
   ("어깨가", ["어깨통증", "견통", "어깨결림"]),
   ("어깨아파", ["어깨통증", "견통"]),
   ("무릎이", ["무릎통증", "관절통", "슬통"]),
   ("무릎아파", ["무릎통증", "관절통"]),
   ("다리가", ["하지통증", "다리통증", "근육통"]),
   ("팔이", ["상지통증", "팔통증", "근육통"]),
   ("가려워", ["가려움", "소양증", "피부염"]),
   ("가려움", ["가려움", "소양증"]),
   ("두드러기", ["두드러기", "발진", "피부발진"]),
   ("뾰루지", ["여드름", "발진", "피부염"]),
   ("어지러워", ["어지러움", "현기증", "두훈"]),
   ("어지러움", ["어지러움", "현기증"]),
   ("메스꺼워", ["메스꺼움", "구역", "구토"]),
   ("토할것", ["구토", "구역", "메스꺼움"]),
   ("잠이", ["불면", "수면", "불면증"]),
   ("못자", ["불면", "수면장애", "불면증"]),
   ("피곤", ["피로", "권태", "무기력"]),
   ("피곤해", ["피로", "권태", "무기력"]),
   ("눈이", ["안구통증", "눈피로", "안구건조"]),
   ("눈아파", ["안구통증", "눈피로"])]

/-- Dict lookup `self.symptom_synonyms[token]` / `token in self.symptom_synonyms`. -/
def synonymLookup (token : String) : Option (List String) :=
  (symptomSynonyms.find? (fun p => p.1 = token)).map (·.2)

/-- A Hangul syllable (the `가-힣` character class). -/
def isHangulSyllable (c : Char) : Bool :=
  0xAC00 ≤ c.toNat ∧ c.toNat ≤ 0xD7A3

/-- A character kept by `re.sub(r'[^\w\s가-힣]', ' ', text)`: Python's `\w`
is modelled for the character ranges this corpus uses (ASCII letters and
digits, underscore, Hangul syllables); every other non-whitespace character
is replaced by a space. -/
def isWordChar (c : Char) : Bool :=
  c.isAlphanum ∨ c = '_' ∨ isHangulSyllable c

/-- `re.match(r'^[가-힣]+$', token)`. -/
def isHangulStr (t : String) : Bool :=
  ¬ t.data.isEmpty ∧ t.data.all isHangulSyllable

/-- `token[i:i+n]` on a Python string: character slicing. -/
def substrAt (t : String) (i n : ℕ) : String :=
  String.mk ((t.data.drop i).take n)

/-- Python `a in b` on strings: contiguous-substring containment. -/
def substrOf (a b : String) : Bool :=
  decide (a.data <:+: b.data)

/-- `text.split()`: split on runs of whitespace, dropping empty pieces. -/
def splitWsAux : List Char → List Char → List (List Char)
  | [], acc => if acc.isEmpty then [] else [acc.reverse]
  | c :: rest, acc =>
    if c.isWhitespace then
      if acc.isEmpty then splitWsAux rest [] else acc.reverse :: splitWsAux rest []
    else splitWsAux rest (c :: acc)

/-- `text.split()` as a list of tokens. -/
def splitWs (s : List Char) : List String :=
  (splitWsAux s []).map String.mk

/-- Steps (1)-(2) of `tokenize`: lower-case, replace the characters outside
`[\w\s가-힣]` by spaces, split on whitespace, drop stopwords and tokens of
length < 2.  (Python `str.lower` is modelled on its ASCII range by
`Char.toLower`; the Korean data is unaffected by lower-casing.) -/
def baseTokens (text : String) : List String :=
  let lowered := text.data.map Char.toLower
  let cleaned := lowered.map (fun c =>
    if isWordChar c ∨ c.isWhitespace then c else ' ')
  (splitWs cleaned).filter (fun t => ¬ stopwords.contains t ∧ 1 < t.length)

/-- The 2-gram block of the loop body: each character 2-gram, followed by
the synonym expansion of the 2-gram when `expand_synonyms` is set. -/
def twoGramPart (token : String) (expand : Bool) : List String :=
  (List.range (token.length - 1)).flatMap (fun i =>
    let g := substrAt token i 2
    g :: (if expand then (synonymLookup g).getD [] else []))

/-- The 3-gram block of the loop body. -/
def threeGramPart (token : String) : List String :=
  (List.range (token.length - 2)).map (fun i => substrAt token i 3)

/-- The loop body of `tokenize` for one surviving token: the token itself;
when expanding, its direct synonyms (each doubled when it is a symptom
keyword) and the synonyms of every map key sharing a substring with the
token; for pure-Hangul tokens the 2-grams (with their synonym expansions)
and 3-grams; finally the token twice more when it is a symptom keyword. -/
def emitToken (token : String) (expand : Bool) : List String :=
  [token]
  ++ (if expand then
        (match synonymLookup token with
         | some syns => syns.flatMap (fun syn =>
             syn :: (if symptomKeywords.contains syn then [syn] else []))
         | none => [])
        ++ symptomSynonyms.flatMap (fun p =>
             if substrOf p.1 token ∨ substrOf token p.1 then p.2 else [])
      else [])
  ++ (if isHangulStr token ∧ 2 ≤ token.length then
        twoGramPart token expand
        ++ (if 3 ≤ token.length then threeGramPart token else [])
      else [])
  ++ (if symptomKeywords.contains token then [token, token] else [])

/-- `KoreanTokenizer.tokenize`. -/
def tokenize (text : String) (expandSynonyms : Bool) : List String :=
  if text = "" then []
  else (baseTokens text).foldl (fun ngrams token => ngrams ++ emitToken token expandSynonyms) []

/-! ## Cache-key hashing
(`backend/app/services/memory_service.py`, `MemoryService.hash_query`:
`hashlib.sha256(query.lower().strip().encode()).hexdigest()[:16]`).
SHA-256 is embedded in full (FIPS 180-4) over naturals reduced mod 2^32. -/

/-- Python `str.strip()` (on a character list): drop whitespace from both
ends.  Python strips the Unicode whitespace class; the model uses the ASCII
whitespace characters, which is what the queries of this backend contain. -/
def pyStrip (s : List Char) : List Char :=
  ((s.dropWhile Char.isWhitespace).reverse.dropWhile Char.isWhitespace).reverse

/-- Python `str.lower()` (on a character list); modelled on its ASCII range
by `Char.toLower`. -/
def pyLower (s : List Char) : List Char :=
  s.map Char.toLower

/-- The normalization of `hash_query`: `query.lower().strip()`. -/
def normalizeQuery (s : List Char) : List Char :=
  pyStrip (pyLower s)

/-- `str.encode()`: UTF-8 encoding of one character. -/
def utf8EncodeChar (c : Char) : List ℕ :=
  let n := c.toNat
  if n < 0x80 then [n]
  else if n < 0x800 then
    [0xC0 ||| (n >>> 6), 0x80 ||| (n &&& 0x3F)]
  else if n < 0x10000 then
    [0xE0 ||| (n >>> 12), 0x80 ||| ((n >>> 6) &&& 0x3F), 0x80 ||| (n &&& 0x3F)]
  else
    [0xF0 ||| (n >>> 18), 0x80 ||| ((n >>> 12) &&& 0x3F),
     0x80 ||| ((n >>> 6) &&& 0x3F), 0x80 ||| (n &&& 0x3F)]

/-- `str.encode()`: UTF-8 encoding of a string as a byte list. -/
def utf8Encode (s : List Char) : List ℕ :=
  s.flatMap utf8EncodeChar

/-- Reduction to a 32-bit word. -/
def w32 (n : ℕ) : ℕ := n % 4294967296

/-- 32-bit right rotation. -/
def rotr32 (k x : ℕ) : ℕ :=
  w32 ((x >>> k) ||| (x <<< (32 - k)))

/-- SHA-256 `Σ0`. -/
def bsig0 (x : ℕ) : ℕ := rotr32 2 x ^^^ rotr32 13 x ^^^ rotr32 22 x

/-- SHA-256 `Σ1`. -/
def bsig1 (x : ℕ) : ℕ := rotr32 6 x ^^^ rotr32 11 x ^^^ rotr32 25 x

/-- SHA-256 `σ0`. -/
def ssig0 (x : ℕ) : ℕ := rotr32 7 x ^^^ rotr32 18 x ^^^ (x >>> 3)

/-- SHA-256 `σ1`. -/
def ssig1 (x : ℕ) : ℕ := rotr32 17 x ^^^ rotr32 19 x ^^^ (x >>> 10)

/-- The SHA-256 round constants (FIPS 180-4 §4.2.2, written in decimal). -/
def sha256K : List ℕ :=
  [1116352408, 1899447441, 3049323471, 3921009573, 961987163, 1508970993,
   2453635748, 2870763221, 3624381080, 310598401, 607225278, 1426881987,
   1925078388, 2162078206, 2614888103, 3248222580, 3835390401, 4022224774,
   264347078, 604807628, 770255983, 1249150122, 1555081692, 1996064986,
   2554220882, 2821834349, 2952996808, 3210313671, 3336571891, 3584528711,
   113926993, 338241895, 666307205, 773529912, 1294757372, 1396182291,
   1695183700, 1986661051, 2177026350, 2456956037, 2730485921, 2820302411,
   3259730800, 3345764771, 3516065817, 3600352804, 4094571909, 275423344,
   430227734, 506948616, 659060556, 883997877, 958139571, 1322822218,
   1537002063, 1747873779, 1955562222, 2024104815, 2227730452, 2361852424,
   2428436474, 2756734187, 3204031479, 3329325298]

/-- The eight working variables / hash state of SHA-256. -/
structure Sha256State where
  a : ℕ
  b : ℕ
  c : ℕ
  d : ℕ
  e : ℕ
  f : ℕ
  g : ℕ
  h : ℕ
deriving DecidableEq, Repr

/-- The SHA-256 initial hash value (FIPS 180-4 §5.3.3, written in decimal). -/
def sha256Init : Sha256State :=
  ⟨1779033703, 3144134277, 1013904242, 2773480762,
   1359893119, 2600822924, 528734635, 1541459225⟩

/-- An 8-byte big-endian encoding of the bit length. -/
def beBytes8 (n : ℕ) : List ℕ :=
  [(n >>> 56) % 256, (n >>> 48) % 256, (n >>> 40) % 256, (n >>> 32) % 256,
   (n >>> 24) % 256, (n >>> 16) % 256, (n >>> 8) % 256, n % 256]

/-- SHA-256 padding: append `0x80`, then zeros to 56 mod 64 bytes, then the
bit length as 8 big-endian bytes. -/
def sha256Pad (msg : List ℕ) : List ℕ :=
  let padZeros := (119 - msg.length % 64) % 64
  msg ++ [0x80] ++ List.replicate padZeros 0 ++ beBytes8 (msg.length * 8)

/-- Big-endian 32-bit words from a byte list (the byte count of a padded
message is a multiple of 4). -/
def bytesToWords : List ℕ → List ℕ
  | b0 :: b1 :: b2 :: b3 :: rest =>
    ((b0 <<< 24) ||| (b1 <<< 16) ||| (b2 <<< 8) ||| b3) :: bytesToWords rest
  | _ => []

/-- The message-schedule extension, keeping the words newest-first:
`w[t] = σ1(w[t-2]) + w[t-7] + σ0(w[t-15]) + w[t-16] (mod 2^32)`. -/
def scheduleRev : ℕ → List ℕ → List ℕ
  | 0, acc => acc
  | n + 1, acc =>
    scheduleRev n
      (w32 (ssig1 (acc.getD 1 0) + acc.getD 6 0 + ssig0 (acc.getD 14 0) + acc.getD 15 0) :: acc)

/-- The 64-entry message schedule of one block. -/
def sha256Schedule (block : List ℕ) : List ℕ :=
  (scheduleRev 48 block.reverse).reverse

/-- One round of the SHA-256 compression function. -/
def sha256Round (st : Sha256State) (wk : ℕ × ℕ) : Sha256State :=
  let t1 := w32 (st.h + bsig1 st.e + ((st.e &&& st.f) ^^^ ((4294967295 - st.e) &&& st.g))
    + wk.2 + wk.1)
  let t2 := w32 (bsig0 st.a + ((st.a &&& st.b) ^^^ (st.a &&& st.c) ^^^ (st.b &&& st.c)))
  ⟨w32 (t1 + t2), st.a, st.b, st.c, w32 (st.d + t1), st.e, st.f, st.g⟩

/-- The compression function applied to one 16-word block. -/
def sha256Compress (st : Sha256State) (block : List ℕ) : Sha256State :=
  let w := sha256Schedule block
  let r := (w.zip sha256K).foldl sha256Round st
  ⟨w32 (st.a + r.a), w32 (st.b + r.b), w32 (st.c + r.c), w32 (st.d + r.d),
   w32 (st.e + r.e), w32 (st.f + r.f), w32 (st.g + r.g), w32 (st.h + r.h)⟩

/-- Folding the compression function over the 16-word blocks of the padded
message. -/
def sha256Blocks : Sha256State → List ℕ → Sha256State
  | st, w0 :: w1 :: w2 :: w3 :: w4 :: w5 :: w6 :: w7 ::
        w8 :: w9 :: w10 :: w11 :: w12 :: w13 :: w14 :: w15 :: rest =>
    sha256Blocks
      (sha256Compress st [w0, w1, w2, w3, w4, w5, w6, w7, w8, w9, w10, w11, w12, w13, w14, w15])
      rest
  | st, _ => st

/-- The lowercase hexadecimal digits. -/
def hexDigits : List Char :=
  "0123456789abcdef".data

/-- The hex digit of a nibble. -/
def hexChar (n : ℕ) : Char :=
  hexDigits.getD (n % 16) '0'

/-- Two hex digits of a byte. -/
def byteHex (b : ℕ) : List Char :=
  [hexChar ((b >>> 4) % 16), hexChar (b % 16)]

/-- Eight hex digits of a 32-bit word, big-endian. -/
def wordHex (x : ℕ) : List Char :=
  byteHex ((x >>> 24) % 256) ++ byteHex ((x >>> 16) % 256)
    ++ byteHex ((x >>> 8) % 256) ++ byteHex (x % 256)

/-- `hashlib.sha256(msg).hexdigest()` over a byte list. -/
def sha256Hex (msg : List ℕ) : List Char :=
  let st := sha256Blocks sha256Init (bytesToWords (sha256Pad msg))
  wordHex st.a ++ wordHex st.b ++ wordHex st.c ++ wordHex st.d
    ++ wordHex st.e ++ wordHex st.f ++ wordHex st.g ++ wordHex st.h

/-- `MemoryService.hash_query`:
`hashlib.sha256(query.lower().strip().encode()).hexdigest()[:16]`. -/
def hashQuery (query : String) : String :=
  String.mk ((sha256Hex (utf8Encode (normalizeQuery query.data))).take 16)

/-! ## BM25 index lifecycle
(`backend/app/services/bm25_search.py`, `BM25SearchService.initialize`,
`BM25IndexCache.set_data`, `BM25SearchService.search`). -/

/-- A `drugs` row as selected by the initialization query (which filters
`WHERE efficacy IS NOT NULL`). -/
structure DrugRow where
  drugId : String
  itemName : Option String
  entpName : Option String
  efficacy : Option String
  useMethod : Option String
  cautionInfo : Option String
  sideEffects : Option String
deriving DecidableEq, Repr

/-- A document stored in the cache's `documents` list. -/
structure BM25Doc where
  drugId : String
  itemName : Option String
  entpName : Option String
  efficacy : Option String
  useMethod : Option String
  cautionInfo : Option String
  sideEffects : Option String
deriving DecidableEq, Repr

/-- `s[:n]` on a Python string. -/
def strTake (s : String) (n : ℕ) : String :=
  String.mk (s.data.take n)

/-- `BM25SearchService._create_document_text`: `item_name or ""`, the full
`efficacy`, and the first 200 characters of `use_method` and
`caution_info`, joined by single spaces. -/
def createDocumentText (itemName efficacy useMethod cautionInfo : Option String) : String :=
  let parts := [itemName.getD ""]
    ++ (match efficacy with
        | some e => [e]
        | none => [])
    ++ (match useMethod with
        | some u => [strTake u 200]
        | none => [])
    ++ (match cautionInfo with
        | some c => [strTake c 200]
        | none => [])
  String.intercalate " " parts

/-- One iteration of the row loop of `BM25SearchService.initialize`: build
the document text, tokenize it with `expand_synonyms=False`, and append the
document and its token list (in lockstep) only when the token list is
non-empty. -/
def buildIndexStep (acc : List BM25Doc × List (List String)) (row : DrugRow) :
    List BM25Doc × List (List String) :=
  let docText := createDocumentText row.itemName row.efficacy row.useMethod row.cautionInfo
  let tokens := tokenize docText false
  if tokens.isEmpty then acc
  else (acc.1 ++ [⟨row.drugId, row.itemName, row.entpName, row.efficacy,
          row.useMethod, row.cautionInfo, row.sideEffects⟩],
        acc.2 ++ [tokens])

/-- The row loop of `BM25SearchService.initialize`. -/
def buildIndexData (rows : List DrugRow) : List BM25Doc × List (List String) :=
  rows.foldl buildIndexStep ([], [])

/-- `self.bm25.get_scores(query_tokens)`: the external `rank_bm25`
`BM25Okapi` model scores each corpus document against the query tokens, so
the score vector has one entry per document; the per-document scoring
function of the library is abstracted as `scoreFn`. -/
def bm25GetScores (scoreFn : List String → List String → ℚ)
    (queryTokens : List String) (corpus : List (List String)) : List ℚ :=
  corpus.map (scoreFn queryTokens)

/-- Ordering of `scored_docs.sort(key=lambda x: x[1], reverse=True)`. -/
def scoredGE (a b : ℕ × ℚ) : Prop :=
  b.2 ≤ a.2

instance : DecidableRel scoredGE := fun a b =>
  inferInstanceAs (Decidable (b.2 ≤ a.2))

instance : IsTotal (ℕ × ℚ) scoredGE :=
  ⟨fun a b => le_total b.2 a.2⟩

instance : IsTrans (ℕ × ℚ) scoredGE :=
  ⟨fun _ _ _ hab hbc => le_trans hbc hab⟩

/-- `scored_docs = list(zip(range(len(scores)), scores))`, sorted by score
descending, truncated to `top_k` (the indices the document-lookup loop of
`search` then uses). -/
def bm25ScoredDocs (scores : List ℚ) (topK : ℕ) : List (ℕ × ℚ) :=
  ((((List.range scores.length).zip scores)).insertionSort scoredGE).take topK

/-- `BM25SearchService.search` after initialization: tokenize the query
with `expand_synonyms=True`, score the corpus, keep the `top_k` best
strictly positive entries, and look each index up in `documents`.  The
lookup `self.documents[idx]` is modelled with `List.get?` so that an
out-of-bounds access would surface as `none`. -/
def bm25SearchHits (scoreFn : List String → List String → ℚ)
    (docs : List BM25Doc) (corpus : List (List String))
    (query : String) (topK : ℕ) : List (Option BM25Doc × ℚ) :=
  if docs.isEmpty then []
  else
    let queryTokens := tokenize query true
    if queryTokens.isEmpty then []
    else
      let scores := bm25GetScores scoreFn queryTokens corpus
      (bm25ScoredDocs scores topK).filterMap (fun p =>
        if 0 < p.2 then some (docs.get? p.1, p.2) else none)

/-! ## Helper lemmas -/

/-- Accumulating a fold of list appends is a `flatMap`. -/
theorem foldl_append_eq_flatMap {α β : Type} (f : α → List β) :
    ∀ (l : List α) (acc : List β),
      l.foldl (fun acc x => acc ++ f x) acc = acc ++ l.flatMap f
  | [], acc => by simp
  | x :: l, acc => by
    rw [List.foldl_cons, foldl_append_eq_flatMap f l (acc ++ f x)]
    simp

/-- A `filterMap` by a function that succeeds on every element preserves
length. -/
theorem length_filterMap_of_isSome {α β : Type} (f : α → Option β) :
    ∀ (l : List α), (∀ x ∈ l, (f x).isSome) → (l.filterMap f).length = l.length
  | [], _ => rfl
  | x :: l, h => by
    have hx := h x (List.mem_cons_self x l)
    obtain ⟨y, hy⟩ := Option.isSome_iff_exists.mp hx
    rw [List.filterMap_cons, hy]
    simp only [List.length_cons]
    rw [length_filterMap_of_isSome f l (fun a ha => h a (List.mem_cons_of_mem x ha))]

/-- A sorted list stays sorted after `take`. -/
theorem sorted_take {α : Type} {r : α → α → Prop} {l : List α}
    (h : List.Sorted r l) (n : ℕ) : List.Sorted r (l.take n) :=
  List.Pairwise.sublist (List.take_sublist n l) h

/-- `assocFind` on a cons cell. -/
theorem assocFind_cons {β : Type} (k₀ : String) (v₀ : β) (m : List (String × β)) (k' : String) :
    assocFind ((k₀, v₀) :: m) k' = if k₀ = k' then some v₀ else assocFind m k' := by
  simp only [assocFind, List.find?_cons]
  by_cases h : k₀ = k' <;> simp [h]

/-- `assocFind` after `assocSet`. -/
theorem assocFind_assocSet {β : Type} (k k' : String) (v : β) :
    ∀ (m : List (String × β)),
      assocFind (assocSet m k v) k' = if k = k' then some v else assocFind m k'
  | [] => by
    show assocFind [(k, v)] k' = _
    rw [assocFind_cons]
  | (k₀, v₀) :: m => by
    show assocFind (if k₀ = k then (k, v) :: m else (k₀, v₀) :: assocSet m k v) k' = _
    by_cases h0 : k₀ = k
    · rw [if_pos h0, assocFind_cons, assocFind_cons]
      by_cases h : k = k'
      · rw [if_pos h, if_pos h]
      · rw [if_neg h, if_neg h, if_neg (fun hk => h (h0 ▸ hk))]
    · rw [if_neg h0, assocFind_cons, assocFind_assocSet k k' v m, assocFind_cons]
      by_cases h1 : k₀ = k'
      · rw [if_pos h1, if_neg (fun hk => h0 (h1.trans hk.symm)), if_pos h1]
      · rw [if_neg h1, if_neg h1]

/-- The last-match lookup evaluated on an appended list. -/
theorem find?_reverse_append {α : Type} (p : α → Bool) (l₁ l₂ : List α) :
    ((l₁ ++ l₂).reverse.find? p) =
      ((l₂.reverse.find? p).or (l₁.reverse.find? p)) := by
  rw [List.reverse_append, List.find?_append]

/-! ## Properties of the BM25 hybrid fusion -/

/-- A record produced by `mergeOne` carries its id and the lookup-based
score components. -/
theorem mergeOne_spec {dr : List DenseResult} {br : List BM25Result}
    {wD wS : ℚ} {id : String} {r : HybridResult}
    (h : mergeOne dr br wD wS id = some r) :
    r.drugId = id ∧ r.denseScore = denseScoreOf dr id ∧
      r.bm25Score = sparseScoreOf br id ∧
      r.hybridScore = wS * sparseScoreOf br id + wD * denseScoreOf dr id := by
  unfold mergeOne at h
  unfold denseScoreOf sparseScoreOf
  cases hd : denseLookup dr id with
  | some rd =>
    have hid : rd.drugId = id := by
      have := List.find?_some (hd ▸ rfl : List.find? (fun r => r.drugId = id) dr.reverse = some rd)
      exact of_decide_eq_true this
    cases hb : bm25Lookup br id with
    | some rb =>
      simp only [hd, hb] at h
      cases h
      exact ⟨hid, rfl, rfl, rfl⟩
    | none =>
      simp only [hd, hb] at h
      cases h
      exact ⟨hid, rfl, rfl, rfl⟩
  | none =>
    cases hb : bm25Lookup br id with
    | some rb =>
      have hid : rb.drugId = id := by
        have := List.find?_some (hb ▸ rfl : List.find? (fun r => r.drugId = id) br.reverse = some rb)
        exact of_decide_eq_true this
      simp only [hd, hb] at h
      cases h
      exact ⟨hid, rfl, rfl, rfl⟩
    | none =>
      simp only [hd, hb] at h
      cases h

/-- `mergeOne` succeeds on every id drawn from the union of the two
candidate sets. -/
theorem mergeOne_isSome {dr : List DenseResult} {br : List BM25Result}
    (wD wS : ℚ) {id : String} (h : id ∈ allDrugIds dr br) :
    (mergeOne dr br wD wS id).isSome := by
  unfold allDrugIds at h
  rw [List.mem_dedup, List.mem_append] at h
  unfold mergeOne
  rcases h with h | h
  · obtain ⟨r, hr, hid⟩ := List.mem_map.mp h
    have hfind : (denseLookup dr id).isSome := by
      unfold denseLookup
      rw [List.find?_isSome]
      exact ⟨r, List.mem_reverse.mpr hr, decide_eq_true hid⟩
    obtain ⟨rd, hrd⟩ := Option.isSome_iff_exists.mp hfind
    cases hb : bm25Lookup br id <;> simp [hrd, hb]
  · obtain ⟨r, hr, hid⟩ := List.mem_map.mp h
    have hfind : (bm25Lookup br id).isSome := by
      unfold bm25Lookup
      rw [List.find?_isSome]
      exact ⟨r, List.mem_reverse.mpr hr, decide_eq_true hid⟩
    obtain ⟨rb, hrb⟩ := Option.isSome_iff_exists.mp hfind
    cases hd : denseLookup dr id <;> simp [hrb, hd]

/-- Every record of `hybridSearch`'s output comes from `mergeOne` on some
id of the union. -/
theorem hybridSearch_mem {dr : List DenseResult} {br : List BM25Result}
    {wD wS : ℚ} {topK : ℕ} {r : HybridResult}
    (h : r ∈ hybridSearch dr br wD wS topK) :
    ∃ id ∈ allDrugIds dr br, mergeOne dr br wD wS id = some r := by
  unfold hybridSearch at h
  have h1 := List.mem_of_mem_take h
  have h2 := (List.perm_insertionSort hybridGE _).mem_iff.mp h1
  exact List.mem_filterMap.mp h2

/-! ## Properties of the Milvus hybrid fusion -/

/-- The map built by the dense loop: the entry of a key is the last dense
hit with that `drug_id`, carrying its score and a zero sparse score. -/
theorem assocFind_milvusDenseFold (k : String) :
    ∀ (hits : List MilvusHit) (m : List (String × MilvusEntry)),
      assocFind (hits.foldl (fun m hit => assocSet m hit.drugId ⟨hit.entity, hit.score, 0⟩) m) k =
        match hits.reverse.find? (fun hit => hit.drugId = k) with
        | some hit => some ⟨hit.entity, hit.score, 0⟩
        | none => assocFind m k
  | [], m => by simp
  | hit :: hits, m => by
    rw [List.foldl_cons, assocFind_milvusDenseFold k hits]
    rw [show hit :: hits = [hit] ++ hits from rfl,
      find?_reverse_append (fun hit : MilvusHit => decide (hit.drugId = k)) [hit] hits]
    cases hfind : hits.reverse.find? (fun hit => hit.drugId = k) with
    | some h' => simp
    | none =>
      by_cases hk : hit.drugId = k
      · simp [assocFind_assocSet, hk]
      · simp [assocFind_assocSet, hk]

/-- The sparse component after the sparse loop: the normalized score of the
last sparse hit with the key, else whatever the map already had. -/
theorem milvusSparseFold_sparse (k : String) :
    ∀ (hits : List MilvusHit) (m : List (String × MilvusEntry)),
      (assocFind (milvusSparseFold m hits) k).map (·.sparseScore) =
        match hits.reverse.find? (fun hit => hit.drugId = k) with
        | some hit => some (min (hit.score / SPLADE_MAX_SCORE) 1)
        | none => (assocFind m k).map (·.sparseScore)
  | [], m => by simp [milvusSparseFold]
  | hit :: hits, m => by
    have hstep : milvusSparseFold m (hit :: hits) =
        milvusSparseFold
          (match assocFind m hit.drugId with
           | some e => assocSet m hit.drugId { e with sparseScore := min (hit.score / SPLADE_MAX_SCORE) 1 }
           | none => assocSet m hit.drugId ⟨hit.entity, 0, min (hit.score / SPLADE_MAX_SCORE) 1⟩)
          hits := rfl
    rw [hstep, milvusSparseFold_sparse k hits]
    have hrev : (hit :: hits).reverse.find? (fun hit => hit.drugId = k)
        = ((hits.reverse.find? (fun hit => hit.drugId = k)).or
            ([hit].reverse.find? (fun hit => hit.drugId = k))) := by
      exact find?_reverse_append (fun hit : MilvusHit => decide (hit.drugId = k)) [hit] hits
    rw [hrev]
    cases hfind : hits.reverse.find? (fun hit => hit.drugId = k) with
    | some h' => simp
    | none =>
      cases hm : assocFind m hit.drugId with
      | some e =>
        by_cases hk : hit.drugId = k
        · simp [assocFind_assocSet, hk]
        · simp [assocFind_assocSet, hk]
      | none =>
        by_cases hk : hit.drugId = k
        · simp [assocFind_assocSet, hk]
        · simp [assocFind_assocSet, hk]

/-- The dense component after the sparse loop: an entry already in the map
keeps its dense score; an entry created by the sparse loop has dense score
zero. -/
theorem milvusSparseFold_dense (k : String) :
    ∀ (hits : List MilvusHit) (m : List (String × MilvusEntry)),
      (assocFind (milvusSparseFold m hits) k).map (·.denseScore) =
        match assocFind m k with
        | some e => some e.denseScore
        | none => if hits.any (fun hit => hit.drugId = k) then some 0 else none
  | [], m => by
    cases hm : assocFind m k <;> simp [milvusSparseFold, hm]
  | hit :: hits, m => by
    have hstep : milvusSparseFold m (hit :: hits) =
        milvusSparseFold
          (match assocFind m hit.drugId with
           | some e => assocSet m hit.drugId { e with sparseScore := min (hit.score / SPLADE_MAX_SCORE) 1 }
           | none => assocSet m hit.drugId ⟨hit.entity, 0, min (hit.score / SPLADE_MAX_SCORE) 1⟩)
          hits := rfl
    rw [hstep, milvusSparseFold_dense k hits]
    cases hm : assocFind m hit.drugId with
    | some e =>
      by_cases hk : hit.drugId = k
      · have hm' : assocFind m k = some e := hk ▸ hm
        simp [assocFind_assocSet, hk, hm']
      · cases hmk : assocFind m k <;> simp [assocFind_assocSet, hk, hmk]
    | none =>
      by_cases hk : hit.drugId = k
      · have hm' : assocFind m k = none := hk ▸ hm
        simp [assocFind_assocSet, hk, hm']
      · cases hmk : assocFind m k <;> simp [assocFind_assocSet, hk, hmk]

/-- The keys of `assocSet m k v` are among the keys of `m` and `k`. -/
theorem mem_keys_assocSet {β : Type} {k x : String} {v : β} :
    ∀ {m : List (String × β)}, x ∈ (assocSet m k v).map Prod.fst →
      x ∈ m.map Prod.fst ∨ x = k
  | [], h => by
    simp [assocSet] at h
    exact Or.inr h
  | (k₀, v₀) :: m, h => by
    rw [assocSet] at h
    by_cases h0 : k₀ = k
    · rw [if_pos h0] at h
      rcases List.mem_map.mp h with ⟨p, hp, hx⟩
      rcases List.mem_cons.mp hp with hp | hp
      · exact Or.inr (by rw [← hx, hp])
      · exact Or.inl (List.mem_map.mpr ⟨p, List.mem_cons_of_mem _ hp, hx⟩)
    · rw [if_neg h0] at h
      rcases List.mem_map.mp h with ⟨p, hp, hx⟩
      rcases List.mem_cons.mp hp with hp | hp
      · exact Or.inl (List.mem_map.mpr ⟨p, by rw [hp]; exact List.mem_cons_self _ _, hx⟩)
      · rcases mem_keys_assocSet (List.mem_map.mpr ⟨p, hp, hx⟩) with h' | h'
        · exact Or.inl (List.mem_map.mpr (by
            rcases List.mem_map.mp h' with ⟨q, hq, hxq⟩
            exact ⟨q, List.mem_cons_of_mem _ hq, hxq⟩))
        · exact Or.inr h'

/-- `assocSet` preserves distinctness of the keys. -/
theorem nodupKeys_assocSet {β : Type} {k : String} {v : β} :
    ∀ {m : List (String × β)}, (m.map Prod.fst).Nodup →
      ((assocSet m k v).map Prod.fst).Nodup
  | [], _ => by simp [assocSet]
  | (k₀, v₀) :: m, h => by
    rw [List.map_cons, List.nodup_cons] at h
    rw [assocSet]
    by_cases h0 : k₀ = k
    · rw [if_pos h0, List.map_cons, List.nodup_cons]
      exact ⟨by rw [← h0]; exact h.1, h.2⟩
    · rw [if_neg h0, List.map_cons, List.nodup_cons]
      refine ⟨fun hmem => ?_, nodupKeys_assocSet h.2⟩
      rcases mem_keys_assocSet hmem with h' | h'
      · exact h.1 h'
      · exact h0 h'

/-- Under distinct keys, membership determines the lookup. -/
theorem assocFind_eq_of_mem {β : Type} {k : String} {e : β} :
    ∀ {m : List (String × β)}, (m.map Prod.fst).Nodup → (k, e) ∈ m →
      assocFind m k = some e
  | [], _, hm => absurd hm (List.not_mem_nil _)
  | (k₀, v₀) :: m, h, hm => by
    rw [List.map_cons, List.nodup_cons] at h
    rw [assocFind_cons]
    rcases List.mem_cons.mp hm with hm | hm
    · rw [if_pos (congrArg Prod.fst hm).symm]
      exact congrArg some (congrArg Prod.snd hm).symm
    · have hk : k ∈ m.map Prod.fst := List.mem_map.mpr ⟨(k, e), hm, rfl⟩
      rw [if_neg (fun h0 : k₀ = k => h.1 (by rw [h0]; exact hk))]
      exact assocFind_eq_of_mem h.2 hm

/-- The dense loop preserves distinctness of the keys. -/
theorem nodupKeys_denseFold :
    ∀ (hits : List MilvusHit) (m : List (String × MilvusEntry)),
      (m.map Prod.fst).Nodup →
      (((hits.foldl (fun m hit => assocSet m hit.drugId ⟨hit.entity, hit.score, 0⟩) m)).map Prod.fst).Nodup
  | [], _, h => h
  | hit :: hits, m, h => by
    rw [List.foldl_cons]
    exact nodupKeys_denseFold hits _ (nodupKeys_assocSet h)

/-- The sparse loop preserves distinctness of the keys. -/
theorem nodupKeys_sparseFold :
    ∀ (hits : List MilvusHit) (m : List (String × MilvusEntry)),
      (m.map Prod.fst).Nodup →
      ((milvusSparseFold m hits).map Prod.fst).Nodup
  | [], _, h => h
  | hit :: hits, m, h => by
    have hstep : milvusSparseFold m (hit :: hits) =
        milvusSparseFold
          (match assocFind m hit.drugId with
           | some e => assocSet m hit.drugId { e with sparseScore := min (hit.score / SPLADE_MAX_SCORE) 1 }
           | none => assocSet m hit.drugId ⟨hit.entity, 0, min (hit.score / SPLADE_MAX_SCORE) 1⟩)
          hits := rfl
    rw [hstep]
    cases hm : assocFind m hit.drugId with
    | some e => exact nodupKeys_sparseFold hits _ (nodupKeys_assocSet h)
    | none => exact nodupKeys_sparseFold hits _ (nodupKeys_assocSet h)

/-- The score components of any entry of the final `results_map`. -/
theorem milvusEntry_spec {denseHits sparseHits : List MilvusHit}
    {p : String × MilvusEntry}
    (hp : p ∈ milvusSparseFold (milvusDenseFold denseHits) sparseHits) :
    p.2.denseScore = milvusDenseScoreOf denseHits p.1 ∧
      p.2.sparseScore = milvusSparseScoreOf sparseHits p.1 := by
  have hnodup : ((milvusSparseFold (milvusDenseFold denseHits) sparseHits).map Prod.fst).Nodup :=
    nodupKeys_sparseFold sparseHits _ (nodupKeys_denseFold denseHits [] List.nodup_nil)
  have hfind : assocFind (milvusSparseFold (milvusDenseFold denseHits) sparseHits) p.1 = some p.2 :=
    assocFind_eq_of_mem hnodup hp
  have hdense := milvusSparseFold_dense p.1 sparseHits (milvusDenseFold denseHits)
  have hsparse := milvusSparseFold_sparse p.1 sparseHits (milvusDenseFold denseHits)
  rw [hfind] at hdense hsparse
  have hdfold := assocFind_milvusDenseFold p.1 denseHits []
  constructor
  · unfold milvusDenseScoreOf
    cases hdf : denseHits.reverse.find? (fun hit => hit.drugId = p.1) with
    | some hit =>
      rw [hdf] at hdfold
      simp only [milvusDenseFold] at hdense
      rw [hdfold] at hdense
      simpa using hdense
    | none =>
      rw [hdf] at hdfold
      simp only [milvusDenseFold] at hdense
      rw [hdfold] at hdense
      simp only [assocFind, List.find?_nil, Option.map_none] at hdense
      cases hany : sparseHits.any (fun hit => hit.drugId = p.1) with
      | true =>
        rw [hany] at hdense
        simpa using hdense
      | false =>
        rw [hany] at hdense
        simp at hdense
  · unfold milvusSparseScoreOf
    cases hsf : sparseHits.reverse.find? (fun hit => hit.drugId = p.1) with
    | some hit =>
      rw [hsf] at hsparse
      simpa using hsparse
    | none =>
      rw [hsf] at hsparse
      simp only [milvusDenseFold] at hsparse
      cases hdf : denseHits.reverse.find? (fun hit => hit.drugId = p.1) with
      | some hit =>
        rw [hdf] at hdfold
        rw [hdfold] at hsparse
        simpa using hsparse
      | none =>
        rw [hdf] at hdfold
        rw [hdfold] at hsparse
        simp [assocFind] at hsparse

/-- C1: for every candidate set, the fused score of each merged record of
`HybridSearchService.search` equals `dense_weight` times its dense score
plus `sparse_weight` times its normalized sparse score (with a missing
dense component contributing 0 and a missing sparse component contributing
0), and the returned list is sorted by `hybrid_score` in non-increasing
order and truncated to `top_k` (its length is `top_k` capped by the number
of merged ids); the same holds for `MilvusService.hybrid_search` over its
two ANN hit lists. -/
theorem claim_C1 (denseResults : List DenseResult) (bm25Results : List BM25Result)
    (denseHits sparseHits : List MilvusHit) (denseWeight sparseWeight : ℚ) (topK : ℕ) :
    (∀ r ∈ hybridSearch denseResults bm25Results denseWeight sparseWeight topK,
      r.denseScore = denseScoreOf denseResults r.drugId ∧
      r.bm25Score = sparseScoreOf bm25Results r.drugId ∧
      r.hybridScore = denseWeight * denseScoreOf denseResults r.drugId
        + sparseWeight * sparseScoreOf bm25Results r.drugId) ∧
    List.Sorted hybridGE (hybridSearch denseResults bm25Results denseWeight sparseWeight topK) ∧
    (hybridSearch denseResults bm25Results denseWeight sparseWeight topK).length
      = min topK (allDrugIds denseResults bm25Results).length ∧
    (∀ r ∈ milvusHybridSearch denseHits sparseHits denseWeight sparseWeight topK,
      r.denseScore = milvusDenseScoreOf denseHits r.drugId ∧
      r.sparseScore = milvusSparseScoreOf sparseHits r.drugId ∧
      r.hybridScore = denseWeight * milvusDenseScoreOf denseHits r.drugId
        + sparseWeight * milvusSparseScoreOf sparseHits r.drugId) ∧
    List.Sorted milvusGE (milvusHybridSearch denseHits sparseHits denseWeight sparseWeight topK) ∧
    (milvusHybridSearch denseHits sparseHits denseWeight sparseWeight topK).length ≤ topK := by
  refine ⟨?_, ?_, ?_, ?_, ?_, ?_⟩
  · intro r hr
    obtain ⟨id, hid, hmerge⟩ := hybridSearch_mem hr
    obtain ⟨hrid, hdense, hsparse, hhybrid⟩ := mergeOne_spec hmerge
    rw [hrid]
    exact ⟨hdense, hsparse, by rw [hhybrid]; ring⟩
  · exact sorted_take (List.sorted_insertionSort hybridGE _) topK
  · unfold hybridSearch
    rw [List.length_take, (List.perm_insertionSort hybridGE _).length_eq,
      length_filterMap_of_isSome _ _ (fun id hid => mergeOne_isSome denseWeight sparseWeight hid)]
  · intro r hr
    unfold milvusHybridSearch at hr
    have h1 := List.mem_of_mem_take hr
    have h2 := (List.perm_insertionSort milvusGE _).mem_iff.mp h1
    obtain ⟨p, hp, hpr⟩ := List.mem_map.mp h2
    obtain ⟨hd, hs⟩ := milvusEntry_spec hp
    rw [← hpr]
    refine ⟨hd, hs, ?_⟩
    rw [hd, hs]
    ring
  · exact sorted_take (List.sorted_insertionSort milvusGE _) topK
  · unfold milvusHybridSearch
    exact List.length_take_le topK _

/-- C1 witness: the theorem applied to a concrete pair of candidate sets.
With dense candidate `A` (similarity `9/10`) and sparse candidate `B`
(raw BM25 score `15`), the fused output is `[A, B]` with hybrid scores
`63/100` and `3/20`. -/
theorem claim_C1_witness :
    (hybridSearch [⟨"A", "", 9/10⟩] [⟨"B", "", 15⟩] (7/10) (3/10) 2).map
        (fun r => (r.drugId, r.hybridScore)) = [("A", 63/100), ("B", 3/20)] ∧
    ∀ r ∈ hybridSearch [⟨"A", "", 9/10⟩] [⟨"B", "", 15⟩] (7/10) (3/10) 2,
      r.hybridScore = (7/10) * denseScoreOf [⟨"A", "", 9/10⟩] r.drugId
        + (3/10) * sparseScoreOf [⟨"B", "", 15⟩] r.drugId :=
  ⟨by norm_num +decide [hybridSearch, allDrugIds, mergeOne, denseLookup, bm25Lookup,
      normalizeBm25Score, BM25_MAX_SCORE, List.dedup, List.pwFilter,
      List.insertionSort, List.orderedInsert, hybridGE],
   fun r hr => ((claim_C1 [⟨"A", "", 9/10⟩] [⟨"B", "", 15⟩] [] [] (7/10) (3/10) 2).1 r hr).2.2⟩

/-! ## Properties of the dense index client -/

/-- C4 counterexample: the returned similarity is not clamped to `[0, 1]`.
For a stored vector opposite to the query embedding (`[1, 0]` versus
`[-1, 0]`, both of norm 1) the pgvector cosine distance is `2` and
`search_similar` returns `similarity = 1 - 2 = -1 < 0`. -/
theorem claim_C4_counterexample :
    (searchSimilar [⟨"d", "doc", "", cosineDistance [1, 0] [-1, 0] 1 1⟩] 5).map
        (·.similarity) = [-1] ∧
    ¬ (0:ℚ) ≤ -1 := by
  constructor
  · norm_num [searchSimilar, cosineDistance, dotQ, pyFloatOrZero,
      List.insertionSort, List.orderedInsert]
  · norm_num

/-- C4 (amended): every row returned by `search_similar` carries
`similarity = 1 - d` where `d` is the value of the server-side cosine
distance operator on its stored vector; the value is not clamped, and lies
in `[-1, 1]` (not `[0, 1]`) whenever the operator value lies in its range
`[0, 2]`. -/
theorem claim_C4_amended (rows : List PgRow) (topK : ℕ) :
    ∀ r ∈ searchSimilar rows topK, ∃ src ∈ rows,
      r.similarity = 1 - src.distance ∧
      (0 ≤ src.distance → src.distance ≤ 2 → -1 ≤ r.similarity ∧ r.similarity ≤ 1) := by
  intro r hr
  unfold searchSimilar at hr
  obtain ⟨src, hsrc, hmap⟩ := List.mem_map.mp hr
  have hsrc' : src ∈ rows :=
    (List.perm_insertionSort distLE rows).mem_iff.mp (List.mem_of_mem_take hsrc)
  refine ⟨src, hsrc', ?_, ?_⟩
  · rw [← hmap]
    show pyFloatOrZero (1 - src.distance) = 1 - src.distance
    unfold pyFloatOrZero
    split
    · next h => rw [h]
    · rfl
  · intro h0 h2
    have hsim : r.similarity = 1 - src.distance := by
      rw [← hmap]
      show pyFloatOrZero (1 - src.distance) = 1 - src.distance
      unfold pyFloatOrZero
      split
      · next h => rw [h]
      · rfl
    rw [hsim]
    constructor <;> linarith

/-- C4 witness: the amended theorem applied to a concrete row with cosine
distance `1/2`, whose returned similarity is `1/2 ∈ [-1, 1]`. -/
theorem claim_C4_amended_witness :
    ∃ src ∈ [(⟨"d", "doc", "", 1/2⟩ : PgRow)],
      (⟨"d", "doc", "", 1/2⟩ : SimilarRow).similarity = 1 - src.distance ∧
      (0 ≤ src.distance → src.distance ≤ 2 →
        -1 ≤ (⟨"d", "doc", "", 1/2⟩ : SimilarRow).similarity ∧
          (⟨"d", "doc", "", 1/2⟩ : SimilarRow).similarity ≤ 1) := by
  have hmem : (⟨"d", "doc", "", 1/2⟩ : SimilarRow)
      ∈ searchSimilar [⟨"d", "doc", "", 1/2⟩] 5 := by
    norm_num [searchSimilar, pyFloatOrZero, List.insertionSort, List.orderedInsert]
  exact claim_C4_amended [⟨"d", "doc", "", 1/2⟩] 5 _ hmem

/-! ## Properties of the reranker client -/

/-- C5 counterexample: when the reranker is disabled, `rerank` returns the
input documents *unchanged*, not truncated to `top_n`: with two documents
and `top_n = 1` the output still has both documents. -/
theorem claim_C5_counterexample :
    rerank false (RerankOutcome.fail "") [⟨"a", "", none, none⟩, ⟨"b", "", none, none⟩] (some 1)
      ≠ [⟨"a", "", none, none⟩, ⟨"b", "", none, none⟩].take 1 ∧
    rerank false (RerankOutcome.fail "") [⟨"a", "", none, none⟩, ⟨"b", "", none, none⟩] (some 1)
      = [⟨"a", "", none, none⟩, ⟨"b", "", none, none⟩] := by
  constructor
  · decide
  · decide

/-- C5 (amended): when the reranker is disabled or the document list is
empty, `rerank` returns the inputs *unchanged* (no truncation); when the
external rerank call raises, it returns the inputs truncated to `top_n`
(with a falsy `top_n` replaced by `RERANK_TOP_N`) and never propagates the
error. -/
theorem claim_C5_amended (enabled : Bool) (msg : String)
    (documents : List RerankDoc) (topN? : Option ℕ) (outcome : RerankOutcome) :
    (¬enabled ∨ documents = [] →
      rerank enabled outcome documents topN? = documents) ∧
    (enabled → documents ≠ [] →
      rerank enabled (RerankOutcome.fail msg) documents topN? =
        (let topN := pyOrNat topN? RERANK_TOP_N
         if topN ≠ 0 then documents.take topN else documents)) := by
  constructor
  · intro h
    unfold rerank
    rw [if_pos h]
  · intro he hne
    unfold rerank
    rw [if_neg (by simp [he, hne])]

/-- C5 witness: the amended theorem applied concretely.  Disabled with two
documents returns both; enabled with a raising call and `top_n = 1`
truncates to one document. -/
theorem claim_C5_amended_witness :
    rerank false (RerankOutcome.fail "x") [⟨"a", "", none, none⟩, ⟨"b", "", none, none⟩] (some 1)
      = [⟨"a", "", none, none⟩, ⟨"b", "", none, none⟩] ∧
    rerank true (RerankOutcome.fail "x") [⟨"a", "", none, none⟩, ⟨"b", "", none, none⟩] (some 1)
      = [⟨"a", "", none, none⟩] := by
  constructor
  · exact (claim_C5_amended false "x" [⟨"a", "", none, none⟩, ⟨"b", "", none, none⟩]
      (some 1) (RerankOutcome.fail "x")).1 (Or.inl (by decide))
  · have h := (claim_C5_amended true "x" [⟨"a", "", none, none⟩, ⟨"b", "", none, none⟩]
      (some 1) (RerankOutcome.fail "x")).2 (by decide) (by decide)
    rw [h]
    decide

/-! ## Properties of the orchestrator's generation step -/

/-- C8: when the answer-LLM call raises, `search_and_generate` does not
propagate the exception: provided the retrieval was not empty (the
empty case returns the apology before the LLM is called), the response
carries the retrieval results together with `ai_response` set to the fixed
fallback string "AI 응답을 생성할 수 없습니다. 아래 검색 결과를 참고해
주세요.". -/
theorem claim_C8 (drugResults : List SearchResultRec)
    (diseaseSearch : List DiseaseResultRec)
    (includeDiseases includeGraph enableNeo4j : Bool) (graphContext : String)
    (formatContext : List SearchResultRec → List DiseaseResultRec → String)
    (llmGenerate : String → String → Except String String) (query : String)
    (hfail : ∀ q c, ∃ e, llmGenerate q c = Except.error e)
    (hne : ¬ (drugResults = [] ∧ (if includeDiseases then diseaseSearch else []) = [])) :
    (searchAndGenerate drugResults diseaseSearch includeDiseases includeGraph
        enableNeo4j graphContext formatContext llmGenerate query).aiResponse
      = some FALLBACK_AI_RESPONSE ∧
    (searchAndGenerate drugResults diseaseSearch includeDiseases includeGraph
        enableNeo4j graphContext formatContext llmGenerate query).results
      = drugResults ∧
    (searchAndGenerate drugResults diseaseSearch includeDiseases includeGraph
        enableNeo4j graphContext formatContext llmGenerate query).diseaseResults
      = (if includeDiseases then diseaseSearch else []) := by
  unfold searchAndGenerate
  rw [if_neg hne]
  obtain ⟨e, he⟩ := hfail query
    (formatContext drugResults (if includeDiseases then diseaseSearch else [])
      ++ if includeGraph ∧ enableNeo4j then graphContext else "")
  simp [he]

/-- C8 witness: the theorem applied to a concrete non-empty drug result
list and an always-raising LLM. -/
theorem claim_C8_witness :
    (searchAndGenerate [⟨"d", "", 1, none, none, none, none⟩] [] true true false ""
        (fun _ _ => "ctx") (fun _ _ => Except.error "timeout") "머리가 아파요").aiResponse
      = some FALLBACK_AI_RESPONSE ∧
    (searchAndGenerate [⟨"d", "", 1, none, none, none, none⟩] [] true true false ""
        (fun _ _ => "ctx") (fun _ _ => Except.error "timeout") "머리가 아파요").results
      = [⟨"d", "", 1, none, none, none, none⟩] := by
  have h := claim_C8 [⟨"d", "", 1, none, none, none, none⟩] [] true true false ""
    (fun _ _ => "ctx") (fun _ _ => Except.error "timeout") "머리가 아파요"
    (fun q c => ⟨"timeout", rfl⟩) (by decide)
  exact ⟨h.1, h.2.1⟩

/-! ## Properties of the orchestrator's search paths -/

/-- C2 counterexample: with the native store disabled, the pipeline output
differs from the claimed dense+BM25 fusion.  One dense candidate `d1`
(similarity `1/10`) and one BM25 candidate `b1` (raw score `30`,
normalized `1`): the code returns `[d1]` (dense-only), while the claimed
BM25-fused pipeline would rank `b1` (hybrid `3/10`) above `d1`
(hybrid `7/100`) and return `[b1]`. -/
theorem claim_C2_counterexample :
    (ragSearch false (fun _ => []) (fun _ => [⟨"d1", "p", 1/10, none, none, none, none⟩])
        false false (fun l _ => l) 1).map (·.drugId) = ["d1"] ∧
    (ragSearchSpecFused false (fun _ => []) (fun _ => [⟨"d1", "p", 1/10, none, none, none, none⟩])
        [⟨"b1", "q", 30⟩] false false (fun l _ => l) 1).map (·.drugId) = ["b1"] ∧
    ragSearch false (fun _ => []) (fun _ => [⟨"d1", "p", 1/10, none, none, none, none⟩])
        false false (fun l _ => l) 1
      ≠ ragSearchSpecFused false (fun _ => []) (fun _ => [⟨"d1", "p", 1/10, none, none, none, none⟩])
        [⟨"b1", "q", 30⟩] false false (fun l _ => l) 1 := by
  refine ⟨?_, ?_, ?_⟩
  · norm_num [ragSearch, ragSearchCandidates, searchWithPgvector, toSearchResult]
  · norm_num +decide [ragSearchSpecFused, searchWithPgvector, toSearchResult, hybridSearch,
      allDrugIds, mergeOne, denseLookup, bm25Lookup, normalizeBm25Score, BM25_MAX_SCORE,
      List.dedup, List.pwFilter, List.insertionSort, List.orderedInsert, hybridGE]
  · intro h
    have h1 : (ragSearch false (fun _ => []) (fun _ => [⟨"d1", "p", 1/10, none, none, none, none⟩])
        false false (fun l _ => l) 1).map (·.drugId) = ["d1"] := by
      norm_num [ragSearch, ragSearchCandidates, searchWithPgvector, toSearchResult]
    have h2 : (ragSearchSpecFused false (fun _ => []) (fun _ => [⟨"d1", "p", 1/10, none, none, none, none⟩])
        [⟨"b1", "q", 30⟩] false false (fun l _ => l) 1).map (·.drugId) = ["b1"] := by
      norm_num +decide [ragSearchSpecFused, searchWithPgvector, toSearchResult, hybridSearch,
        allDrugIds, mergeOne, denseLookup, bm25Lookup, normalizeBm25Score, BM25_MAX_SCORE,
        List.dedup, List.pwFilter, List.insertionSort, List.orderedInsert, hybridGE]
    rw [h] at h1
    rw [h1] at h2
    exact absurd h2 (by decide)

/-- C2 (amended): when the native hybrid store is not enabled, the
orchestrator's candidate set is the dense-only retrieval (each row with
`dense_score := similarity` attached); no BM25 fusion happens, so the
candidates carry no sparse or hybrid component (given that the dense rows
carry none, as the pgvector query produces); reranking/truncation is then
applied directly to these dense candidates. -/
theorem claim_C2_amended (milvusFetch denseFetch : ℕ → List RagDict)
    (rerankerEnabled useReranking : Bool)
    (rerankFetch : List RagDict → ℕ → List RagDict) (topK : ℕ)
    (hclean : ∀ k, ∀ r ∈ denseFetch k, r.sparseScore = none ∧ r.hybridScore = none) :
    ragSearchCandidates false milvusFetch denseFetch
        (topK * (if useReranking ∧ rerankerEnabled then 5 else 3))
      = (denseFetch (topK * (if useReranking ∧ rerankerEnabled then 5 else 3))).map
          (fun r => { r with denseScore := some r.similarity }) ∧
    (∀ r ∈ ragSearchCandidates false milvusFetch denseFetch
        (topK * (if useReranking ∧ rerankerEnabled then 5 else 3)),
      r.sparseScore = none ∧ r.hybridScore = none) ∧
    ragSearch false milvusFetch denseFetch rerankerEnabled useReranking rerankFetch topK
      = (let results := ragSearchCandidates false milvusFetch denseFetch
            (topK * (if useReranking ∧ rerankerEnabled then 5 else 3));
         (if useReranking ∧ rerankerEnabled ∧ results ≠ [] then rerankFetch results topK
          else results.take topK).map toSearchResult) := by
  refine ⟨rfl, ?_, rfl⟩
  intro r hr
  unfold ragSearchCandidates searchWithPgvector at hr
  rw [if_neg (by decide)] at hr
  obtain ⟨src, hsrc, hmap⟩ := List.mem_map.mp hr
  have := hclean (topK * (if useReranking ∧ rerankerEnabled then 5 else 3)) src hsrc
  rw [← hmap]
  exact this

/-- C2 witness: the amended theorem applied to a concrete dense fetch of one
clean row, with reranking off and `top_k = 1`. -/
theorem claim_C2_amended_witness :
    ragSearchCandidates false (fun _ => []) (fun _ => [⟨"d1", "p", 1/10, none, none, none, none⟩])
        (1 * (if False ∧ False then 5 else 3))
      = [⟨"d1", "p", 1/10, some (1/10), none, none, none⟩] ∧
    ∀ r ∈ ragSearchCandidates false (fun _ => [])
        (fun _ => [⟨"d1", "p", 1/10, none, none, none, none⟩])
        (1 * (if False ∧ False then 5 else 3)),
      r.sparseScore = none ∧ r.hybridScore = none := by
  have h := claim_C2_amended (fun _ => []) (fun _ => [⟨"d1", "p", 1/10, none, none, none, none⟩])
    false false (fun l _ => l) 1
    (fun k r hr => by
      simp at hr
      rw [hr]
      exact ⟨rfl, rfl⟩)
  refine ⟨?_, ?_⟩
  · have h1 := h.1
    simpa using h1
  · intro r hr
    exact h.2.1 r (by simpa using hr)

/-! ## Properties of the embedded-DB memory backend -/

/-- The DuckDB state after 21 history appends to session `"S"` with the
default `MAX_HISTORY = 20` (each append supplies the bound `20`, the
history TTL and the current time, as `MemoryService.add_to_history` does). -/
def c3State : DuckState :=
  (List.range 21).foldl (fun s _ => addToHistory s "S" "turn" 20 86400 0) duckEmpty

set_option maxRecDepth 4000 in
/-- C3: the claim is right and the DuckDB backend is wrong.  After 21
appends with `MAX_HISTORY = 20` the stored history has length 21, not 20:
`add_to_history` calls `ltrim(key, -20, -1)`, but `DuckDBClient.ltrim`
compares Redis-style negative positions against the stored non-negative
`idx` values (`DELETE ... WHERE idx < -20` deletes nothing), although the
class documents itself as exposing the same interface as Redis, where
`LTRIM key -20 -1` retains the last 20 entries. -/
theorem claim_C3_code_bug :
    duckLlen c3State (historyKey "S") = 21 ∧
    MAX_HISTORY_LENGTH = 20 ∧ (21 : ℕ) ≠ MAX_HISTORY_LENGTH := by
  refine ⟨?_, rfl, by decide⟩
  decide

/-- `INSERT OR REPLACE` makes the inserted row the one the key lookup
finds. -/
theorem find?_kvReplace (k v : String) (e : Option ℚ) :
    ∀ (l : List KvRow),
      (kvReplace l ⟨k, v, e⟩).find? (fun x => x.key = k) = some ⟨k, v, e⟩
  | [] => by simp [kvReplace]
  | x :: l => by
    rw [kvReplace]
    by_cases hx : x.key = (⟨k, v, e⟩ : KvRow).key
    · rw [if_pos hx]
      simp
    · rw [if_neg hx]
      rw [List.find?_cons_of_neg _ (by simpa using hx)]
      exact find?_kvReplace k v e l

/-- C9: the trichotomy of `DuckDBClient.ttl`.  It returns `-2` exactly when
the key has no `kv_store` row (never set by a `set` operation, or deleted —
by `delete` or by the lazy expiry sweep); `-1` exactly when the row has no
expiration; and otherwise the non-negative truncated number of remaining
seconds, clamped at 0.  The operation-level conjuncts instantiate this on
the empty store, after `delete`, and after `set` with and without TTL. -/
theorem claim_C9 (s : DuckState) (k v : String) (t now otherNow : ℚ) :
    (duckTtl s k now = -2 ↔ kvFind s k = none) ∧
    (duckTtl s k now = -1 ↔ ∃ r, kvFind s k = some r ∧ r.expiresAt = none) ∧
    (∀ r e, kvFind s k = some r → r.expiresAt = some e →
      duckTtl s k now = max (ratTrunc (e - now)) 0 ∧ 0 ≤ duckTtl s k now) ∧
    duckTtl duckEmpty k now = -2 ∧
    duckTtl (duckDelete s k) k now = -2 ∧
    duckTtl (duckSet s k v none now) k otherNow = -1 ∧
    (t ≠ 0 → 0 ≤ duckTtl (duckSet s k v (some t) now) k otherNow) := by
  have tt : ∀ (s' : DuckState) (k' : String) (n : ℚ), duckTtl s' k' n =
      (match kvFind s' k' with
       | none => -2
       | some r =>
         match r.expiresAt with
         | none => -1
         | some e => max (ratTrunc (e - n)) 0) := fun _ _ _ => rfl
  refine ⟨?_, ?_, ?_, ?_, ?_, ?_, ?_⟩
  · rw [tt]
    cases hf : kvFind s k with
    | none => simp
    | some r =>
      simp only []
      cases he : r.expiresAt with
      | none =>
        simp
      | some e =>
        simp only []
        constructor
        · intro h
          have h0 : (0:ℤ) ≤ max (ratTrunc (e - now)) 0 := le_max_right _ _
          rw [h] at h0
          norm_num at h0
        · intro h
          simp at h
  · rw [tt]
    cases hf : kvFind s k with
    | none =>
      simp only []
      constructor
      · intro h
        omega
      · rintro ⟨r', hr', -⟩
        cases hr'
    | some r =>
      simp only []
      cases he : r.expiresAt with
      | none =>
        simp only []
        constructor
        · intro _
          exact ⟨r, rfl, he⟩
        · intro _
          trivial
      | some e =>
        simp only []
        constructor
        · intro h
          have h0 : (0:ℤ) ≤ max (ratTrunc (e - now)) 0 := le_max_right _ _
          rw [h] at h0
          norm_num at h0
        · rintro ⟨r', hr', hexp⟩
          cases hr'
          rw [he] at hexp
          exact absurd hexp (by simp)
  · intro r e hf he
    rw [tt]
    simp only [hf, he]
    exact ⟨by simp, le_max_right _ _⟩
  · rfl
  · rw [tt]
    have hnone : kvFind (duckDelete s k) k = none := by
      unfold kvFind duckDelete
      rw [List.find?_eq_none]
      intro x hx
      have := List.of_mem_filter hx
      simpa using this
    simp only [hnone]
  · rw [tt]
    have hfind : kvFind (duckSet s k v none now) k = some ⟨k, v, none⟩ := by
      unfold kvFind duckSet
      exact find?_kvReplace k v none s.kv
    simp only [hfind]
  · intro ht
    rw [tt]
    have hfind : kvFind (duckSet s k v (some t) now) k = some ⟨k, v, some (now + t)⟩ := by
      show (kvReplace s.kv ⟨k, v, if t ≠ 0 then some (now + t) else none⟩).find?
          (fun r => r.key = k) = _
      rw [if_pos ht]
      exact find?_kvReplace k v (some (now + t)) s.kv
    simp only [hfind]
    exact le_max_right _ _

/-- C9 witness: the trichotomy applied to concrete states: a key set with
TTL 5 at time 0 has a non-negative remaining TTL at time 3; a key set
without TTL reports `-1`; an absent key reports `-2`. -/
theorem claim_C9_witness :
    0 ≤ duckTtl (duckSet duckEmpty "k" "v" (some 5) 0) "k" 3 ∧
    duckTtl (duckSet duckEmpty "k" "v" none 0) "k" 3 = -1 ∧
    duckTtl duckEmpty "k" 3 = -2 := by
  refine ⟨?_, ?_, ?_⟩
  · exact (claim_C9 duckEmpty "k" "v" 5 0 3).2.2.2.2.2.2 (by norm_num)
  · exact (claim_C9 duckEmpty "k" "v" 5 0 3).2.2.2.2.2.1
  · exact (claim_C9 duckEmpty "k" "v" 5 3 3).2.2.2.1

/-! ## Properties of the tokenizer -/

/-- A character slice of a Python string is a contiguous substring. -/
theorem substrAt_infix (t : String) (i n : ℕ) :
    (substrAt t i n).data <:+: t.data :=
  ((List.take_prefix n (t.data.drop i)).isInfix).trans
    ((List.drop_suffix i t.data).isInfix)

/-- The surviving whitespace-delimited tokens are never stopwords. -/
theorem baseTokens_not_stop {text : String} {b : String}
    (hb : b ∈ baseTokens text) : stopwords.contains b = false := by
  unfold baseTokens at hb
  have := (List.mem_filter.mp hb).2
  have h := of_decide_eq_true this
  exact eq_false_of_ne_true (fun hc => h.1 hc)

/-- `tokenize` is the concatenation of the per-token emissions. -/
theorem tokenize_eq (text : String) (e : Bool) :
    tokenize text e = (baseTokens text).flatMap (fun b => emitToken b e) := by
  unfold tokenize
  by_cases h : text = ""
  · rw [if_pos h, h]
    rfl
  · rw [if_neg h]
    exact (foldl_append_eq_flatMap (fun b => emitToken b e) (baseTokens text) []).trans
      (List.nil_append _)

/-- A value found by key lookup in the synonym map is among the map's
values. -/
theorem synonymLookup_mem_values {g : String} {syns : List String}
    (hg : synonymLookup g = some syns) {v : String} (hv : v ∈ syns) :
    v ∈ symptomSynonyms.flatMap (·.2) := by
  unfold synonymLookup at hg
  obtain ⟨pr, hfind, h2⟩ := Option.map_eq_some'.mp hg
  exact List.mem_flatMap.mpr ⟨pr, List.mem_of_find?_eq_some hfind, h2 ▸ hv⟩

/-- A stopword can appear in the emission of a surviving token only as a
proper character n-gram of it or as a term from the synonym map's values. -/
theorem stop_mem_emitToken {b t : String} {e : Bool}
    (hb : stopwords.contains b = false)
    (ht : t ∈ emitToken b e) (hstop : stopwords.contains t = true) :
    t ≠ b ∧ (t.data <:+: b.data ∨ t ∈ symptomSynonyms.flatMap (·.2)) := by
  have htb : t ≠ b := fun h => by
    rw [h, hb] at hstop
    cases hstop
  refine ⟨htb, ?_⟩
  unfold emitToken at ht
  rcases List.mem_append.mp ht with ht | ht
  · rcases List.mem_append.mp ht with ht | ht
    · rcases List.mem_append.mp ht with ht | ht
      · -- t is the token itself
        rw [List.mem_singleton] at ht
        exact absurd ht htb
      · -- t comes from the synonym expansion
        right
        cases e with
        | false => simp at ht
        | true =>
          rw [if_pos rfl] at ht
          rcases List.mem_append.mp ht with ht | ht
          · cases hsyn : synonymLookup b with
            | none =>
              rw [hsyn] at ht
              simp at ht
            | some syns =>
              rw [hsyn] at ht
              obtain ⟨syn, hsynmem, htmem⟩ := List.mem_flatMap.mp ht
              have hts : t = syn := by
                rcases List.mem_cons.mp htmem with h | h
                · exact h
                · split at h
                  · rw [List.mem_singleton] at h
                    exact h
                  · simp at h
              exact synonymLookup_mem_values hsyn (hts ▸ hsynmem)
          · obtain ⟨p, hp, htmem⟩ := List.mem_flatMap.mp ht
            split at htmem
            · exact List.mem_flatMap.mpr ⟨p, hp, htmem⟩
            · simp at htmem
    · -- t comes from the n-gram block
      split at ht
      · rcases List.mem_append.mp ht with ht | ht
        · -- a 2-gram, possibly with its synonym expansion
          unfold twoGramPart at ht
          obtain ⟨i, hi, htmem⟩ := List.mem_flatMap.mp ht
          rcases List.mem_cons.mp htmem with h | h
          · left
            rw [h]
            exact substrAt_infix b i 2
          · right
            split at h
            · cases hsyn : synonymLookup (substrAt b i 2) with
              | none =>
                rw [hsyn] at h
                simp at h
              | some syns =>
                rw [hsyn] at h
                exact synonymLookup_mem_values hsyn (by simpa using h)
            · simp at h
        · -- a 3-gram
          split at ht
          · unfold threeGramPart at ht
            obtain ⟨i, hi, htmem⟩ := List.mem_map.mp ht
            left
            rw [← htmem]
            exact substrAt_infix b i 3
          · simp at ht
      · simp at ht
  · -- t comes from the symptom-keyword doubling
    exfalso
    split at ht
    · rcases List.mem_cons.mp ht with h | h
      · exact htb h
      · rw [List.mem_singleton] at h
        exact htb h
    · simp at ht

/-- C6 counterexample: stopwords do appear in the output of `tokenize`.
The stopword "하다" appears in `tokenize "하다가" false` (a character
2-gram of the surviving token "하다가"), and the stopword "위" appears in
`tokenize "속이 아파요" true` (a synonym-expansion term of the key
"속이"). -/
theorem claim_C6_counterexample :
    ("하다" ∈ tokenize "하다가" false ∧ "하다" ∈ stopwords) ∧
    ("위" ∈ tokenize "속이 아파요" true ∧ "위" ∈ stopwords) := by
  refine ⟨⟨?_, ?_⟩, ?_, ?_⟩ <;> decide

/-- C6 (amended): the stopword filter removes every whitespace-delimited
token that is a stopword (no surviving token is a stopword, for every
input and both values of `expand_synonyms`), but the output of `tokenize`
is not stopword-free: a stopword can occur in it, and every such
occurrence is either a proper character n-gram of a longer surviving token
or a medical term from the synonym map's value lists. -/
theorem claim_C6_amended (text : String) (expandSynonyms : Bool) :
    (∀ b ∈ baseTokens text, stopwords.contains b = false) ∧
    (∀ t ∈ tokenize text expandSynonyms, stopwords.contains t = true →
      ∃ b ∈ baseTokens text, t ≠ b ∧
        (t.data <:+: b.data ∨ t ∈ symptomSynonyms.flatMap (·.2))) := by
  constructor
  · intro b hb
    exact baseTokens_not_stop hb
  · intro t ht hstop
    rw [tokenize_eq] at ht
    obtain ⟨b, hb, htb⟩ := List.mem_flatMap.mp ht
    exact ⟨b, hb, stop_mem_emitToken (baseTokens_not_stop hb) htb hstop⟩

/-- C6 witness: the amended theorem applied to the concrete input
"하다가": the stopword "하다" in the output is a proper substring of the
surviving token "하다가". -/
theorem claim_C6_amended_witness :
    ∃ b ∈ baseTokens "하다가", "하다" ≠ b ∧
      ("하다".data <:+: b.data ∨ "하다" ∈ symptomSynonyms.flatMap (·.2)) :=
  (claim_C6_amended "하다가" false).2 "하다" (by decide) (by decide)

/-! ## Properties of the cache-key hash -/

/-- Characters are equal iff their code points are. -/
theorem char_toNat_inj {c d : Char} : c = d ↔ c.toNat = d.toNat := by
  constructor
  · intro h
    rw [h]
  · intro h
    exact Char.ext (UInt32.ext h)

/-- `Char.ofNat` on a valid code point round-trips through `toNat`. -/
theorem toNat_ofNat_valid {n : ℕ} (h : n.isValidChar) : (Char.ofNat n).toNat = n := by
  simp only [Char.ofNat, h, dif_pos, Char.ofNatAux, Char.toNat, UInt32.toNat]
  simp [BitVec.toNat_ofNatLt]

/-- A character with code point at least 33 is not whitespace. -/
theorem isWhitespace_false_of_ge {c : Char} (h : 33 ≤ c.toNat) :
    c.isWhitespace = false := by
  have h32 : c ≠ ' ' := by
    rw [Ne, char_toNat_inj]
    show c.toNat ≠ 32
    omega
  have h9 : c ≠ '\t' := by
    rw [Ne, char_toNat_inj]
    show c.toNat ≠ 9
    omega
  have h13 : c ≠ '\x0d' := by
    rw [Ne, char_toNat_inj]
    show c.toNat ≠ 13
    omega
  have h10 : c ≠ '\n' := by
    rw [Ne, char_toNat_inj]
    show c.toNat ≠ 10
    omega
  simp [Char.isWhitespace, h32, h9, h13, h10]

/-- ASCII lower-casing is idempotent. -/
theorem toLower_toLower (c : Char) : (Char.toLower c).toLower = Char.toLower c := by
  unfold Char.toLower
  by_cases h : c.toNat ≥ 65 ∧ c.toNat ≤ 90
  · have hv : (c.toNat + 32).isValidChar := Or.inl (by omega)
    have ht : (Char.ofNat (c.toNat + 32)).toNat = c.toNat + 32 := toNat_ofNat_valid hv
    rw [if_pos h, if_neg (by omega)]
  · rw [if_neg h, if_neg h]

/-- Lower-casing does not change whether a character is whitespace. -/
theorem isWhitespace_toLower (c : Char) :
    (Char.toLower c).isWhitespace = c.isWhitespace := by
  unfold Char.toLower
  by_cases h : c.toNat ≥ 65 ∧ c.toNat ≤ 90
  · have hv : (c.toNat + 32).isValidChar := Or.inl (by omega)
    have ht : (Char.ofNat (c.toNat + 32)).toNat = c.toNat + 32 := toNat_ofNat_valid hv
    rw [if_pos h, isWhitespace_false_of_ge (by omega), isWhitespace_false_of_ge (by omega)]
  · rw [if_neg h]

/-- `pyLower` is idempotent. -/
theorem pyLower_pyLower (s : List Char) : pyLower (pyLower s) = pyLower s := by
  unfold pyLower
  rw [List.map_map]
  exact List.map_congr_left (fun c _ => toLower_toLower c)

/-- Dropping a satisfied prefix twice is the same as dropping it once. -/
theorem dropWhile_dropWhile {α : Type} (p : α → Bool) :
    ∀ (l : List α), (l.dropWhile p).dropWhile p = l.dropWhile p
  | [] => rfl
  | a :: l => by
    by_cases h : p a
    · rw [List.dropWhile_cons_of_pos h]
      exact dropWhile_dropWhile p l
    · rw [List.dropWhile_cons_of_neg h, List.dropWhile_cons_of_neg h]

/-- A prefix of a list with no satisfied prefix has no satisfied prefix. -/
theorem dropWhile_eq_self_of_prefix {α : Type} (p : α → Bool) :
    ∀ {l l' : List α}, l.dropWhile p = l → l' <+: l → l'.dropWhile p = l'
  | _, [], _, _ => rfl
  | l, a :: l', hl, hpre => by
    obtain ⟨rest, hrest⟩ := hpre
    have ha : p a = false := by
      by_contra hc
      have hpa : p a = true := eq_true_of_ne_false hc
      rw [← hrest] at hl
      simp only [List.cons_append] at hl
      rw [List.dropWhile_cons] at hl
      rw [if_pos hpa] at hl
      have hlen := congrArg List.length hl
      rw [List.length_cons] at hlen
      have hle := (List.dropWhile_suffix p (l := l' ++ rest)).length_le
      omega
    rw [List.dropWhile_cons, if_neg (by simp [ha])]

/-- `pyStrip` is idempotent. -/
theorem pyStrip_pyStrip (l : List Char) : pyStrip (pyStrip l) = pyStrip l := by
  unfold pyStrip
  set p := Char.isWhitespace
  set B := l.dropWhile p with hB
  set X := ((B.reverse.dropWhile p).reverse : List Char) with hX
  have hXrev : X.reverse = B.reverse.dropWhile p := by
    rw [hX, List.reverse_reverse]
  have hXpre : X <+: B := by
    have h1 : X.reverse <:+ B.reverse := hXrev ▸ List.dropWhile_suffix p
    have h2 := List.reverse_prefix.mpr h1
    simpa using h2
  have hXdrop : X.dropWhile p = X :=
    dropWhile_eq_self_of_prefix p (dropWhile_dropWhile p l) hXpre
  rw [hXdrop, hXrev, dropWhile_dropWhile p, ← hXrev, List.reverse_reverse]

/-- `pyStrip` commutes with `pyLower`. -/
theorem pyStrip_pyLower (l : List Char) :
    pyStrip (pyLower l) = pyLower (pyStrip l) := by
  unfold pyStrip pyLower
  have hfun : (Char.isWhitespace ∘ Char.toLower) = Char.isWhitespace :=
    funext isWhitespace_toLower
  have hdw : ∀ (m : List Char),
      (m.map Char.toLower).dropWhile Char.isWhitespace
        = (m.dropWhile Char.isWhitespace).map Char.toLower := by
    intro m
    rw [List.dropWhile_map, hfun]
  rw [hdw, ← List.map_reverse, hdw, List.map_reverse]

/-- The normalization of `hash_query` absorbs a prior `strip().lower()`. -/
theorem normalizeQuery_pyLower_pyStrip (s : List Char) :
    normalizeQuery (pyLower (pyStrip s)) = normalizeQuery s := by
  unfold normalizeQuery
  rw [pyLower_pyLower, pyStrip_pyLower, pyStrip_pyStrip, ← pyStrip_pyLower]

/-- Every hex digit produced by `hexChar` is in the hex alphabet. -/
theorem hexChar_mem (n : ℕ) : hexChar n ∈ hexDigits := by
  have hbound : ∀ m, m < 16 → hexDigits.getD m '0' ∈ hexDigits := by decide
  exact hbound (n % 16) (Nat.mod_lt n (by norm_num))

/-- The hexadecimal digest has 64 characters, all from the hex alphabet. -/
theorem sha256Hex_shape (msg : List ℕ) :
    (sha256Hex msg).length = 64 ∧ ∀ c ∈ sha256Hex msg, c ∈ hexDigits := by
  constructor
  · simp [sha256Hex, wordHex, byteHex]
  · intro c hc
    have hbyte : ∀ (x : ℕ), c ∈ byteHex x → c ∈ hexDigits := by
      intro x hx
      unfold byteHex at hx
      rcases List.mem_cons.mp hx with h | h
      · rw [h]
        exact hexChar_mem _
      · rw [List.mem_singleton] at h
        rw [h]
        exact hexChar_mem _
    have hword : ∀ (x : ℕ), c ∈ wordHex x → c ∈ hexDigits := by
      intro x hx
      unfold wordHex at hx
      simp only [List.mem_append] at hx
      rcases hx with ((h | h) | h) | h <;> exact hbyte _ h
    simp only [sha256Hex, List.mem_append] at hc
    rcases hc with ((((((h | h) | h) | h) | h) | h) | h) | h <;> exact hword _ h

/-- C7: for every query string `q`, `hash_query q` equals
`hash_query (q.strip().lower())` (the SHA-256 input is normalized by
`lower().strip()`, which absorbs the outer strip-and-lower), and the hash
is exactly 16 hexadecimal characters. -/
theorem claim_C7 (q : String) :
    hashQuery q = hashQuery (String.mk (pyLower (pyStrip q.data))) ∧
    (hashQuery q).length = 16 ∧
    ∀ c ∈ (hashQuery q).data, c ∈ hexDigits := by
  refine ⟨?_, ?_, ?_⟩
  · unfold hashQuery
    rw [show (String.mk (pyLower (pyStrip q.data))).data = pyLower (pyStrip q.data) from rfl,
      normalizeQuery_pyLower_pyStrip]
  · unfold hashQuery
    show (List.take 16 (sha256Hex (utf8Encode (normalizeQuery q.data)))).length = 16
    rw [List.length_take, (sha256Hex_shape _).1]
    decide
  · intro c hc
    unfold hashQuery at hc
    have hc' : c ∈ sha256Hex (utf8Encode (normalizeQuery q.data)) :=
      List.mem_of_mem_take hc
    exact (sha256Hex_shape _).2 c hc'

/-- C7 witness: the theorem applied to the concrete query `" Aspirin "`:
its cache key equals the one of the already-normalized `"aspirin"`, it has
16 characters, and its first character is a hex digit. -/
theorem claim_C7_witness :
    hashQuery " Aspirin " = hashQuery "aspirin" ∧
    (hashQuery " Aspirin ").length = 16 ∧
    ∃ c ∈ (hashQuery " Aspirin ").data, c ∈ hexDigits := by
  have h := claim_C7 " Aspirin "
  refine ⟨?_, h.2.1, ?_⟩
  · have hnorm : String.mk (pyLower (pyStrip " Aspirin ".data)) = "aspirin" := by decide
    rw [← hnorm]
    exact h.1
  · have hlen : 0 < (hashQuery " Aspirin ").data.length := by
      have h16 := h.2.1
      show 0 < (hashQuery " Aspirin ").length
      omega
    exact ⟨(hashQuery " Aspirin ").data.get ⟨0, hlen⟩, List.get_mem _ 0 hlen,
      h.2.2 _ (List.get_mem _ 0 hlen)⟩

/-! ## Properties of the BM25 index lifecycle -/

/-- The row loop appends to `documents` and `corpus` in lockstep. -/
theorem buildFold_length :
    ∀ (rows : List DrugRow) (acc : List BM25Doc × List (List String)),
      acc.1.length = acc.2.length →
      (rows.foldl buildIndexStep acc).1.length = (rows.foldl buildIndexStep acc).2.length
  | [], _, h => h
  | row :: rows, acc, h => by
    rw [List.foldl_cons]
    apply buildFold_length rows
    unfold buildIndexStep
    by_cases ht : (tokenize (createDocumentText row.itemName row.efficacy row.useMethod
        row.cautionInfo) false).isEmpty
    · rw [if_pos ht]
      exact h
    · rw [if_neg ht]
      simp [h]

/-- C10: whenever the BM25 cache is built by `initialize`, `documents` and
`corpus` have equal length (rows with an empty tokenization are skipped
from both in lockstep), so every index of the score-sorted pairs that
`search` iterates over is a valid index into `documents`, and the
document lookup never goes out of bounds. -/
theorem claim_C10 (rows : List DrugRow) (scoreFn : List String → List String → ℚ)
    (query : String) (topK : ℕ) :
    (buildIndexData rows).1.length = (buildIndexData rows).2.length ∧
    ∀ p ∈ bm25ScoredDocs
        (bm25GetScores scoreFn (tokenize query true) (buildIndexData rows).2) topK,
      p.1 < (buildIndexData rows).1.length ∧
        ((buildIndexData rows).1.get? p.1).isSome := by
  have hlen : (buildIndexData rows).1.length = (buildIndexData rows).2.length :=
    buildFold_length rows ([], []) rfl
  refine ⟨hlen, ?_⟩
  intro p hp
  unfold bm25ScoredDocs at hp
  have h1 := List.mem_of_mem_take hp
  have h2 := (List.perm_insertionSort scoredGE _).mem_iff.mp h1
  have h3 := (List.of_mem_zip h2).1
  rw [List.mem_range] at h3
  have hlt : p.1 < (buildIndexData rows).1.length := by
    rw [hlen]
    unfold bm25GetScores at h3
    simpa using h3
  exact ⟨hlt, by simp [List.get?_eq_getElem?, hlt]⟩

/-- C10 witness: the theorem applied to a one-row corpus and a constant
scoring function: the single scored index `0` is in bounds. -/
theorem claim_C10_witness :
    (0, (1 : ℚ)) ∈ bm25ScoredDocs
        (bm25GetScores (fun _ _ => 1) (tokenize "두통" true)
          (buildIndexData [⟨"d", some "타이레놀", none, some "두통", none, none, none⟩]).2) 5 ∧
    (0 : ℕ) < (buildIndexData [⟨"d", some "타이레놀", none, some "두통", none, none, none⟩]).1.length ∧
    ((buildIndexData [⟨"d", some "타이레놀", none, some "두통", none, none, none⟩]).1.get? 0).isSome := by
  have hmem : (0, (1 : ℚ)) ∈ bm25ScoredDocs
      (bm25GetScores (fun _ _ => 1) (tokenize "두통" true)
        (buildIndexData [⟨"d", some "타이레놀", none, some "두통", none, none, none⟩]).2) 5 := by
    decide
  have h := (claim_C10 [⟨"d", some "타이레놀", none, some "두통", none, none, none⟩]
    (fun _ _ => 1) "두통" 5).2 (0, (1 : ℚ)) hmem
  exact ⟨hmem, h.1, h.2⟩

end BioRag

namespace BioRag

set_option maxRecDepth 100000 in
/-- FIPS 180-4 test vector: the SHA-256 digest of the empty message. -/
theorem sha256Hex_empty_vector :
    String.mk (sha256Hex []) =
      "e3b0c44298fc1c149afbf4c8996fb92427ae41e4649b934ca495991b7852b855" := by
  decide

set_option maxRecDepth 100000 in
/-- FIPS 180-4 test vector: the SHA-256 digest of `"abc"`. -/
theorem sha256Hex_abc_vector :
    String.mk (sha256Hex (utf8Encode "abc".data)) =
      "ba7816bf8f01cfea414140de5dae2223b00361a396177a9cb410ff61f20015ad" := by
  decide

end BioRag
